import Mathlib

/-!
PodSet operator: the reconcile loop of `pkg/controller/podset/podset_controller.go`.

A shallow embedding of the controller's `Reconcile` function and its helpers
(`addPod`, `removePod`, `listPods`, `updateStatus`, `labelsForPodSet`,
`defaultLabels`, `newNginxPod`), followed by theorems about them.

Conventions of the embedding:

* a Go `map[string]string` is an `AList` (an association list with distinct
  keys); `m[k] = v` is `AList.insert`, `m[k]` is `AList.lookup`, and a
  `for key, val := range m` loop is a left fold over the entries;
* a Go slice that may be `nil` is an `Option (List _)`, `none` being `nil`;
  slices that the code always allocates with `make` are plain lists;
* `int32` is an integer in `[-2^31, 2^31)`, and the conversion `int32(n)`
  keeps the low 32 bits;
* the store client is a record of functions over an abstract store state;
  every call the controller makes is appended, with its outcome, to a trace;
* passes in a row are run over an in-memory store, which stands for the
  resource store of the specification when nothing fails and nobody else
  writes;
* where aliasing matters, maps are references into a heap of maps.
-/

namespace PodSetOperator

/-! ## Machine integers -/

/-- Go's `int32`: a signed integer of 32 bits. -/
structure Int32 where
  val : Int
  lo : -2147483648 ≤ val
  hi : val < 2147483648
deriving DecidableEq

/-- The two's complement value of the low 32 bits of `n`. -/
def wrap32 (n : Int) : Int :=
  if n % 4294967296 < 2147483648 then n % 4294967296 else n % 4294967296 - 4294967296

/-- The Go conversion `int32(n)` of an `int`. -/
def int32 (n : Int) : Int32 :=
  ⟨wrap32 n, by unfold wrap32; split <;> omega, by unfold wrap32; split <;> omega⟩

/-! ## API objects -/

/-- A Go `map[string]string`. -/
abbrev StringMap := AList (fun _ : String => String)

/-- The type `metav1.OwnerReference`, reduced to the fields that identify the owner. -/
structure OwnerReference where
  Kind : String
  Name : String
  Controller : Bool
deriving DecidableEq

/-- The type `metav1.ObjectMeta`, reduced to the fields the controller reads or
writes. `DeletionTimestamp` is a pointer in Go: `none` is `nil`. -/
structure ObjectMeta where
  Name : String
  GenerateName : String
  Namespace : String
  Labels : StringMap
  OwnerReferences : List OwnerReference
  DeletionTimestamp : Option Nat
deriving DecidableEq

/-- The type `corev1.Container`. -/
structure Container where
  Name : String
  Image : String
  Command : List String
deriving DecidableEq

/-- The type `corev1.PodSpec`. -/
structure PodSpec where
  Containers : List Container
deriving DecidableEq

/-- The type `corev1.Pod`. -/
structure Pod where
  ObjectMeta : ObjectMeta
  Spec : PodSpec
deriving DecidableEq

/-- Modelled from the spec: the `PodSetSpec` type of `pkg/apis/operator/v1alpha1`
is not part of the source at hand. `Size` is compared with an `int32` in
`Reconcile`, so it is an `int32`. -/
structure PodSetSpec where
  Size : Int32
deriving DecidableEq

/-- Modelled from the spec: the `PodSetStatus` type of `pkg/apis/operator/v1alpha1`
is not part of the source at hand. `PodNames` is assigned a `[]string` in
`updateStatus`, so it is a slice of strings; `none` is the `nil` slice of an
object whose status was never written. -/
structure PodSetStatus where
  PodNames : Option (List String)
deriving DecidableEq

/-- Modelled from the spec: the `PodSet` type of `pkg/apis/operator/v1alpha1`
is not part of the source at hand; it carries object metadata, a spec and a
status. -/
structure PodSet where
  ObjectMeta : ObjectMeta
  Spec : PodSetSpec
  Status : PodSetStatus
deriving DecidableEq

/-! ## Labels -/

/-- Source: `defaultLabels`. The map literal `{"app": "podset", "podset": cr.Name}`. -/
def defaultLabels (cr : PodSet) : StringMap :=
  ((∅ : StringMap).insert "app" "podset").insert "podset" cr.ObjectMeta.Name

/-- The loop `for key, val := range m { labels[key] = val }` run over the
entries of `m` in the order `entries`. -/
def rangeAssign (entries : List (Sigma fun _ : String => String)) (labels : StringMap) :
    StringMap :=
  entries.foldl (fun acc e => acc.insert e.1 e.2) labels

/-- Source: `labelsForPodSet`. The default labels, then every label of the
PodSet assigned over them. -/
def labelsForPodSet (cr : PodSet) : StringMap :=
  rangeAssign cr.ObjectMeta.Labels.entries (defaultLabels cr)

/-! ## Errors, requests and results -/

/-- The reason carried by an API error (`metav1.StatusReason`); `Unknown` also
stands for an error that is not an API status error. -/
inductive StatusReason where
  | NotFound
  | AlreadyExists
  | Conflict
  | Unknown
deriving DecidableEq

/-- A Go `error` value that is not `nil`. -/
structure Error where
  reason : StatusReason
  message : String
deriving DecidableEq

/-- The test `errors.IsNotFound(err)` of apimachinery. -/
def IsNotFound (err : Error) : Bool :=
  decide (err.reason = StatusReason.NotFound)

/-- The type `types.NamespacedName`. -/
structure NamespacedName where
  Namespace : String
  Name : String
deriving DecidableEq

/-- The type `reconcile.Request`. -/
structure Request where
  NamespacedName : NamespacedName
deriving DecidableEq

/-- The type `reconcile.Result`; `Result{}` is `⟨false, 0⟩`. -/
structure Result where
  Requeue : Bool
  RequeueAfter : Nat
deriving DecidableEq

/-! ## Selectors -/

/-- An equality requirement `key = value` of a label selector. -/
structure Requirement where
  key : String
  value : String
deriving DecidableEq

/-- A label selector: the conjunction of its requirements. -/
abbrev Selector := List Requirement

/-- The pieces of `text` between the occurrences of `sep`, as
`strings.Split` cuts them. -/
def splitChars (sep : Char) : List Char → List (List Char)
  | [] => [[]]
  | c :: rest =>
    if c = sep then [] :: splitChars sep rest
    else
      match splitChars sep rest with
      | [] => [[c]]
      | part :: parts => (c :: part) :: parts

/-- A character of `[-A-Za-z0-9_.]`. -/
def isQnameExtChar (c : Char) : Bool :=
  c.isAlphanum || c == '-' || c == '_' || c == '.'

/-- The regular expression `^([A-Za-z0-9][-A-Za-z0-9_.]*)?[A-Za-z0-9]$` of
apimachinery's `validation` package. -/
def matchesQualifiedName (cs : List Char) : Bool :=
  match cs.head?, cs.getLast? with
  | some first, some last => first.isAlphanum && last.isAlphanum && cs.all isQnameExtChar
  | _, _ => false

/-- The regular expression `^[a-z0-9]([-a-z0-9]*[a-z0-9])?$` of a DNS label. -/
def matchesDNS1123Label (cs : List Char) : Bool :=
  match cs.head?, cs.getLast? with
  | some first, some last =>
    (first.isLower || first.isDigit) && (last.isLower || last.isDigit) &&
      cs.all fun c => c.isLower || c.isDigit || c == '-'
  | _, _ => false

/-- The function `validation.IsDNS1123Subdomain`, as a test: at most 253 bytes,
and DNS labels separated by dots. -/
def IsDNS1123Subdomain (value : String) : Bool :=
  decide (value.utf8ByteSize ≤ 253) && (splitChars '.' value.data).all matchesDNS1123Label

/-- The name part of a qualified name: not empty, at most 63 bytes, and of the
form of a qualified name. -/
def validNamePart (name : List Char) : Bool :=
  !name.isEmpty && decide ((String.mk name).utf8ByteSize ≤ 63) && matchesQualifiedName name

/-- The function `validation.IsQualifiedName`, as a test: a name part, or a DNS
subdomain, a slash and a name part. -/
def IsQualifiedName (value : String) : Bool :=
  match splitChars '/' value.data with
  | [name] => validNamePart name
  | [domain, name] =>
    !domain.isEmpty && IsDNS1123Subdomain (String.mk domain) && validNamePart name
  | _ => false

/-- The function `validation.IsValidLabelValue`, as a test: at most 63 bytes,
and empty or of the form of a qualified name. -/
def IsValidLabelValue (value : String) : Bool :=
  decide (value.utf8ByteSize ≤ 63) && (value.data.isEmpty || matchesQualifiedName value.data)

/-- The function `labels.NewRequirement` for the operator `=` and one value:
the requirement, or `none` for the error it returns when the key is not a
qualified name or the value is not a valid label value. -/
def NewRequirement (key value : String) : Option Requirement :=
  if IsQualifiedName key && IsValidLabelValue value then some ⟨key, value⟩ else none

/-- The loop of `labels.SelectorFromSet`: a requirement is appended for each
label; `none` is the early return taken when a requirement cannot be built. -/
def collectRequirements : List (Sigma fun _ : String => String) → Option (List Requirement)
  | [] => some []
  | e :: rest =>
    match NewRequirement e.1 e.2 with
    | none => none
    | some req =>
      match collectRequirements rest with
      | none => none
      | some reqs => some (req :: reqs)

/-- The function `labels.SelectorFromSet` of apimachinery, as vendored with
controller-runtime v0.1: one equality requirement for each label, sorted by
key; when a label fails validation the function returns the empty selector,
which matches every label set (as it does for an empty label set). -/
def SelectorFromSet (ls : StringMap) : Selector :=
  match collectRequirements ls.entries with
  | none => []
  | some reqs => reqs.insertionSort fun a b => a.key.data ≤ b.key.data

/-- The method `Selector.Matches`: every requirement holds of the label set. -/
def Selector.Matches (sel : Selector) (labels : StringMap) : Bool :=
  sel.all fun req => decide (labels.lookup req.key = some req.value)

/-- The type `client.ListOptions`, with the two fields `listPods` sets. -/
structure ListOptions where
  Namespace : String
  LabelSelector : Selector
deriving DecidableEq

/-- A pod is selected by list options when it lives in the namespace (an empty
namespace in the options stands for all namespaces) and its labels satisfy
the selector. -/
def ListOptions.Selects (opts : ListOptions) (pod : Pod) : Bool :=
  decide (opts.Namespace = "" ∨ pod.ObjectMeta.Namespace = opts.Namespace) &&
    opts.LabelSelector.Matches pod.ObjectMeta.Labels

/-! ## The store client and the trace of a pass -/

/-- A call made by the controller: the five store operations, and the
ownership registration of controller-runtime. -/
inductive Call where
  | Get (key : NamespacedName)
  | List (opts : ListOptions)
  | SetControllerReference (owner : PodSet) (object : Pod)
  | Create (obj : Pod)
  | Delete (obj : Pod)
  | Update (obj : PodSet)
deriving DecidableEq

/-- A call together with the error it returned (`none` is a `nil` error). -/
structure Event where
  call : Call
  err : Option Error
deriving DecidableEq

/-- The interface `client.Client` over a store whose states have type `σ`.
Reads leave the store as it is; writes return the error and the next store. -/
structure Client (σ : Type) where
  Get : NamespacedName → σ → Except Error PodSet
  List : ListOptions → σ → Except Error (List Pod)
  Create : Pod → σ → Option Error × σ
  Delete : Pod → σ → Option Error × σ
  Update : PodSet → σ → Option Error × σ

/-- The part of `runtime.Scheme` the controller depends on: the kind under
which the PodSet type is registered, if it is. -/
structure Scheme where
  PodSetKind : Option String

/-- Source: `ReconcilePodSet`. -/
structure ReconcilePodSet (σ : Type) where
  client : Client σ
  scheme : Scheme

/-- What a helper leaves behind: its error, the store, the calls it made. -/
structure Step (σ : Type) where
  err : Option Error
  store : σ
  events : List Event

/-- What a reconcile pass leaves behind: the pair `(reconcile.Result, error)`
it returns, the store, and the calls it made, in order. -/
structure Pass (σ : Type) where
  result : Result
  err : Option Error
  store : σ
  events : List Event

/-! ## The worker factory and the ownership registration -/

/-- Source: `newNginxPod`. `fmt.Sprintf("%s-", cr.Name)` is `cr.Name ++ "-"`. -/
def newNginxPod (cr : PodSet) : Pod :=
  { ObjectMeta :=
      { Name := ""
        GenerateName := cr.ObjectMeta.Name ++ "-"
        Namespace := cr.ObjectMeta.Namespace
        Labels := labelsForPodSet cr
        OwnerReferences := []
        DeletionTimestamp := none }
    Spec :=
      { Containers := [{ Name := "nginx", Image := "nginx:stable-alpine", Command := [] }] } }

/-- The owner reference built by `metav1.NewControllerRef`. -/
def NewControllerRef (owner : PodSet) (kind : String) : OwnerReference :=
  { Kind := kind, Name := owner.ObjectMeta.Name, Controller := true }

/-- The slice `refs` after `refs[fi] = ref`, where `fi` is the index of the last
reference that `same` holds of; `refs` itself when there is none. -/
def replaceLast (same : OwnerReference → Bool) (ref : OwnerReference) :
    List OwnerReference → List OwnerReference
  | [] => []
  | r :: rest =>
    if rest.any same then r :: replaceLast same ref rest
    else if same r then ref :: rest
    else r :: rest

/-- The function `controllerutil.SetControllerReference` of controller-runtime:
it fails when the owner's type is not registered in the scheme, and at the
first existing reference to another object that is a controller; otherwise
it returns the object with the owner reference written over the last existing
reference to the same owner, or appended if there is none. -/
def SetControllerReference (owner : PodSet) (object : Pod) (scheme : Scheme) :
    Except Error Pod :=
  match scheme.PodSetKind with
  | none => .error ⟨StatusReason.Unknown, "no kind is registered for the type v1alpha1.PodSet"⟩
  | some kind =>
    let ref := NewControllerRef owner kind
    let existingRefs := object.ObjectMeta.OwnerReferences
    let same := fun (r : OwnerReference) => decide (r.Kind = ref.Kind ∧ r.Name = ref.Name)
    match existingRefs.find? (fun r => !same r && r.Controller) with
    | some r =>
      .error ⟨StatusReason.Unknown,
        "Object " ++ object.ObjectMeta.Namespace ++ "/" ++ object.ObjectMeta.Name
          ++ " is already owned by another " ++ r.Kind ++ " controller " ++ r.Name⟩
    | none =>
      .ok { object with
        ObjectMeta := { object.ObjectMeta with
          OwnerReferences :=
            if existingRefs.any same then replaceLast same ref existingRefs
            else existingRefs ++ [ref] } }

/-! ## The helpers of the reconcile loop -/

variable {σ : Type}

/-- Source: `addPod`. Build the pod, register the owner, and create the pod
only if the registration returned no error. -/
def addPod (r : ReconcilePodSet σ) (cr : PodSet) (store : σ) : Step σ :=
  let pod := newNginxPod cr
  match SetControllerReference cr pod r.scheme with
  | .error err =>
    { err := some err, store := store, events := [⟨.SetControllerReference cr pod, some err⟩] }
  | .ok pod =>
    let out := r.client.Create pod store
    { err := out.1, store := out.2
      events := [⟨.SetControllerReference cr (newNginxPod cr), none⟩, ⟨.Create pod, out.1⟩] }

/-- The options `listPods` builds for the PodSet: its namespace, and the
selector of its labels. -/
def listOps (cr : PodSet) : ListOptions :=
  { Namespace := cr.ObjectMeta.Namespace
    LabelSelector := SelectorFromSet (labelsForPodSet cr) }

/-- The loop of `listPods` over `podList.Items`: append every pod whose
`DeletionTimestamp` is `nil` to `pods`, which starts empty. -/
def filterPods (items : List Pod) : List Pod :=
  items.foldl
    (fun pods pod => if pod.ObjectMeta.DeletionTimestamp = none then pods ++ [pod] else pods) []

/-- Source: `listPods`. The pods the store lists for the PodSet, without those
that have a `DeletionTimestamp`; or the error of the list call. -/
def listPods (r : ReconcilePodSet σ) (cr : PodSet) (store : σ) :
    Except Error (List Pod) × List Event :=
  match r.client.List (listOps cr) store with
  | .error err => (.error err, [⟨.List (listOps cr), some err⟩])
  | .ok items => (.ok (filterPods items), [⟨.List (listOps cr), none⟩])

/-- Source: `removePod`. Delete `pods[0]`; indexing an empty slice is a
run-time panic, which is `none`. -/
def removePod (r : ReconcilePodSet σ) (pods : List Pod) (store : σ) : Option (Step σ) :=
  match pods with
  | [] => none
  | pod :: _ =>
    let out := r.client.Delete pod store
    some { err := out.1, store := out.2, events := [⟨.Delete pod, out.1⟩] }

/-- The loop of `updateStatus`: append the name of every pod to `podNames`,
which starts as an empty slice. -/
def collectNames (pods : List Pod) : List String :=
  pods.foldl (fun podNames pod => podNames ++ [pod.ObjectMeta.Name]) []

/-- The function `reflect.DeepEqual` on two `[]string`: both are `nil`, or
neither is and they have the same length and equal elements. A `nil` slice and
an empty slice that is not `nil` are not deeply equal. -/
def DeepEqual : Option (List String) → Option (List String) → Bool
  | none, none => true
  | some x, some y => decide (x = y)
  | _, _ => false

/-- Source: `updateStatus`. Nothing is written when the stored names deeply
equal the names of `pods`; otherwise the names are stored in the PodSet and
the PodSet is written. -/
def updateStatus (r : ReconcilePodSet σ) (cr : PodSet) (pods : List Pod) (store : σ) : Step σ :=
  let podNames := collectNames pods
  if DeepEqual cr.Status.PodNames (some podNames) then
    { err := none, store := store, events := [] }
  else
    let cr := { cr with Status := { cr.Status with PodNames := some podNames } }
    let out := r.client.Update cr store
    { err := out.1, store := out.2, events := [⟨.Update cr, out.1⟩] }

/-- The local `actualSize` of `Reconcile`: `int32(len(pods))`. -/
def actualSize (pods : List Pod) : Int32 :=
  int32 pods.length

/-- The branch of `Reconcile` that adds or removes a pod, if needed. `none` is
a run-time panic. -/
def adjust (r : ReconcilePodSet σ) (cr : PodSet) (pods : List Pod) (store : σ) :
    Option (Step σ) :=
  let actualSize := actualSize pods
  let expectedSize := cr.Spec.Size
  if 0 < expectedSize.val ∧ actualSize.val < expectedSize.val then
    some (addPod r cr store)
  else if 0 < actualSize.val ∧ expectedSize.val < actualSize.val then
    removePod r pods store
  else
    some { err := none, store := store, events := [] }

/-- Source: `ReconcilePodSet.Reconcile`. Fetch the PodSet, list its pods, add
or remove one pod if needed, refresh the status; the first error ends the
pass. `none` is a run-time panic. -/
def Reconcile (r : ReconcilePodSet σ) (request : Request) (store : σ) : Option (Pass σ) :=
  let get : Call := .Get request.NamespacedName
  match r.client.Get request.NamespacedName store with
  | .error err =>
    if IsNotFound err then
      some { result := ⟨false, 0⟩, err := none, store := store, events := [⟨get, some err⟩] }
    else
      some { result := ⟨false, 0⟩, err := some err, store := store, events := [⟨get, some err⟩] }
  | .ok cr =>
    match listPods r cr store with
    | (.error err, evs) =>
      some { result := ⟨false, 0⟩, err := some err, store := store, events := ⟨get, none⟩ :: evs }
    | (.ok pods, evs) =>
      match adjust r cr pods store with
      | none => none
      | some act =>
        match act.err with
        | some err =>
          some { result := ⟨false, 0⟩, err := some err, store := act.store
                 events := ⟨get, none⟩ :: evs ++ act.events }
        | none =>
          let upd := updateStatus r cr pods act.store
          some { result := ⟨false, 0⟩, err := upd.err, store := upd.store
                 events := ⟨get, none⟩ :: evs ++ act.events ++ upd.events }

/-! ## Reading a trace -/

/-- The pods passed to `Create`, in order. -/
def creates (events : List Event) : List Pod :=
  events.filterMap fun e => match e.call with
    | .Create obj => some obj
    | _ => none

/-- The pods passed to `Delete`, in order. -/
def deletes (events : List Event) : List Pod :=
  events.filterMap fun e => match e.call with
    | .Delete obj => some obj
    | _ => none

/-- The PodSets passed to `Update`, in order. -/
def updates (events : List Event) : List PodSet :=
  events.filterMap fun e => match e.call with
    | .Update obj => some obj
    | _ => none

/-- The options passed to `List`, in order. -/
def lists (events : List Event) : List ListOptions :=
  events.filterMap fun e => match e.call with
    | .List opts => some opts
    | _ => none

/-- A call failed: it returned an error, other than a fetch that returned
`NotFound`. -/
def Event.failed (e : Event) : Bool :=
  match e.call, e.err with
  | _, none => false
  | .Get _, some err => !IsNotFound err
  | _, some _ => true

/-- No call of the trace failed. -/
def Clean (events : List Event) : Prop :=
  ∀ e ∈ events, e.failed = false

/-- The shape of a trace that ends at the first failure and returns it: either
no call failed and no error is returned, or the last call failed, its error is
returned, and before it no call failed and nothing was written to the status. -/
def EndsAtFailure (events : List Event) (err : Option Error) : Prop :=
  (err = none ∧ Clean events) ∨
    ∃ pre e, events = pre ++ [e] ∧ Clean pre ∧ updates pre = [] ∧ e.failed = true ∧ e.err = err

/-! ## Sample objects -/

/-- A PodSet with the given name, labels, size and stored pod names, in
namespace `ns1`. -/
def samplePodSet (name : String) (labels : StringMap) (size : Int32)
    (podNames : Option (List String)) : PodSet :=
  { ObjectMeta :=
      { Name := name, GenerateName := "", Namespace := "ns1", Labels := labels
        OwnerReferences := [], DeletionTimestamp := none }
    Spec := { Size := size }
    Status := { PodNames := podNames } }

/-- A pod of the PodSet `demo` with the given name and deletion timestamp. -/
def samplePod (name : String) (deletionTimestamp : Option Nat) : Pod :=
  { ObjectMeta :=
      { Name := name, GenerateName := "demo-", Namespace := "ns1"
        Labels := ((∅ : StringMap).insert "app" "podset").insert "podset" "demo"
        OwnerReferences := [⟨"PodSet", "demo", true⟩], DeletionTimestamp := deletionTimestamp }
    Spec := { Containers := [⟨"nginx", "nginx:stable-alpine", []⟩] } }

/-- A client whose reads answer `get` and `list` whatever is asked, and whose
writes return `werr` and count themselves in the store. -/
def scriptedClient (get : Except Error PodSet) (list : Except Error (List Pod))
    (werr : Option Error) : Client Nat :=
  { Get := fun _ _ => get
    List := fun _ _ => list
    Create := fun _ n => (werr, n + 1)
    Delete := fun _ n => (werr, n + 1)
    Update := fun _ n => (werr, n + 1) }

/-- A reconciler over a scripted client, with the PodSet kind registered. -/
def scripted (get : Except Error PodSet) (list : Except Error (List Pod))
    (werr : Option Error) : ReconcilePodSet Nat :=
  { client := scriptedClient get list werr, scheme := ⟨some "PodSet"⟩ }

/-- The pod `addPod` passes to `Create` for `cr` when the PodSet kind is
registered as `PodSet`: the new pod, with its owner reference. -/
def registeredPod (cr : PodSet) : Pod :=
  { newNginxPod cr with
    ObjectMeta := { (newNginxPod cr).ObjectMeta with
      OwnerReferences := [NewControllerRef cr "PodSet"] } }

/-- The request for the PodSet `ns1/demo`. -/
def demoRequest : Request :=
  ⟨⟨"ns1", "demo"⟩⟩

/-- The literal `2` as an `int32`. -/
def two32 : Int32 := ⟨2, by decide, by decide⟩

/-- The literal `0` as an `int32`. -/
def zero32 : Int32 := ⟨0, by decide, by decide⟩

/-- The literal `-1` as an `int32`. -/
def minusOne32 : Int32 := ⟨-1, by decide, by decide⟩

/-! ## An in-memory store -/

/-- The key of an object: its namespace and its name. -/
def ObjectMeta.key (m : ObjectMeta) : NamespacedName :=
  ⟨m.Namespace, m.Name⟩

/-- Modelled from the spec: the resource store is a collaborator outside the
source at hand; this is the store of section 6 of the specification, without
failures other than `NotFound` and without changes from anyone else. It holds
the PodSets, the pods in the order they were created, and a counter from which
the names of new pods are made. -/
structure Store where
  podSets : List PodSet
  pods : List Pod
  counter : Nat

/-- Modelled from the spec: `get(namespace, name) -> DesiredStateSpec | NotFound`. -/
def Store.Get (key : NamespacedName) (s : Store) : Except Error PodSet :=
  match s.podSets.find? (fun o => decide (o.ObjectMeta.key = key)) with
  | some o => .ok o
  | none => .error ⟨StatusReason.NotFound, "podset not found"⟩

/-- Modelled from the spec: `list(namespace, labelSelector) -> sequence<WorkerObject>`;
the pods the options select, in the order of the store. -/
def Store.List (opts : ListOptions) (s : Store) : Except Error (List Pod) :=
  .ok (s.pods.filter opts.Selects)

/-- Modelled from the spec: `create(WorkerObject)`; the store assigns the final
name, made of the name template and the counter, and appends the pod. -/
def Store.Create (pod : Pod) (s : Store) : Option Error × Store :=
  (none,
    { s with
      pods := s.pods ++ [{ pod with
        ObjectMeta := { pod.ObjectMeta with
          Name := pod.ObjectMeta.GenerateName ++ toString s.counter } }]
      counter := s.counter + 1 })

/-- Modelled from the spec: `delete(WorkerObject) -> error`; the pod with the
key of the given one leaves the store, and `NotFound` is returned if there is
none. -/
def Store.Delete (pod : Pod) (s : Store) : Option Error × Store :=
  if s.pods.any (fun o => decide (o.ObjectMeta.key = pod.ObjectMeta.key)) then
    (none, { s with pods := s.pods.filter fun o => !decide (o.ObjectMeta.key = pod.ObjectMeta.key) })
  else
    (some ⟨StatusReason.NotFound, "pod not found"⟩, s)

/-- Modelled from the spec: `update(DesiredStateSpec) -> error`; the stored
PodSet with the key of the given one is replaced by it, and `NotFound` is
returned if there is none. -/
def Store.Update (obj : PodSet) (s : Store) : Option Error × Store :=
  if s.podSets.any (fun o => decide (o.ObjectMeta.key = obj.ObjectMeta.key)) then
    (none, { s with
      podSets := s.podSets.map fun o =>
        if o.ObjectMeta.key = obj.ObjectMeta.key then obj else o })
  else
    (some ⟨StatusReason.NotFound, "podset not found"⟩, s)

/-- The client of the in-memory store. -/
def storeClient : Client Store :=
  { Get := Store.Get
    List := Store.List
    Create := Store.Create
    Delete := Store.Delete
    Update := Store.Update }

/-- A reconciler over the in-memory store, with the PodSet kind registered. -/
def storeReconciler : ReconcilePodSet Store :=
  { client := storeClient, scheme := ⟨some "PodSet"⟩ }

/-- The store holds, at the key of the request, the PodSet `cr`, whatever its
status is. -/
def Holds (cr : PodSet) (request : Request) (s : Store) : Prop :=
  ∃ cr', s.Get request.NamespacedName = .ok cr' ∧ cr'.ObjectMeta = cr.ObjectMeta ∧
    cr'.Spec = cr.Spec

/-- The observed pods of a PodSet in a store: what `listPods` returns. -/
def observed (cr : PodSet) (s : Store) : List Pod :=
  filterPods (s.pods.filter (listOps cr).Selects)

/-- The store after one reconcile pass; a pass that panics leaves it as it is. -/
def reconcileStore (r : ReconcilePodSet σ) (request : Request) (store : σ) : σ :=
  match Reconcile r request store with
  | some p => p.store
  | none => store

/-- The store after `k` reconcile passes in a row, with no change in between. -/
def afterPasses (r : ReconcilePodSet σ) (request : Request) : Nat → σ → σ
  | 0, store => store
  | k + 1, store => reconcileStore r request (afterPasses r request k store)

/-- The number of delete calls a pass issues. -/
def deleteCount (r : ReconcilePodSet σ) (request : Request) (store : σ) : Nat :=
  match Reconcile r request store with
  | some p => (deletes p.events).length
  | none => 0

/-- The number of delete calls issued by the first `k` passes in a row. -/
def deletesDuring (r : ReconcilePodSet σ) (request : Request) : Nat → σ → Nat
  | 0, _ => 0
  | k + 1, store =>
    deletesDuring r request k store + deleteCount r request (afterPasses r request k store)

/-- The store of the scenario: the PodSet `ns1/demo` of size 2, never
reconciled, and no pod; names are counted from 1. -/
def demoStore : Store :=
  { podSets := [samplePodSet "demo" ∅ two32 none], pods := [], counter := 1 }

/-- A store that holds the PodSet `ns1/demo` of size 2 and five of its pods,
the first of them terminating. -/
def crowdedStore : Store :=
  { podSets := [samplePodSet "demo" ∅ two32 (some [])]
    pods := [samplePod "w0" (some 7), samplePod "w1" none, samplePod "w2" none,
      samplePod "w3" none, samplePod "w4" none]
    counter := 5 }

/-- A store with two PodSets of the namespace `ns1` and no pod: `a`, of size 0
and without labels, and `b`, of size 2 and with the label `podset: a`. -/
def sharedStore : Store :=
  { podSets := [samplePodSet "a" ∅ zero32 (some []),
      samplePodSet "b" ((∅ : StringMap).insert "podset" "a") two32 none]
    pods := []
    counter := 1 }

/-- The request for the PodSet `ns1/a`. -/
def requestA : Request :=
  ⟨⟨"ns1", "a"⟩⟩

/-- The request for the PodSet `ns1/b`. -/
def requestB : Request :=
  ⟨⟨"ns1", "b"⟩⟩

/-! ## Maps as references -/

/-- A heap of Go maps: a map value is a reference, the index of its cell. -/
abbrev MapHeap := List StringMap

/-- The map a reference points to. -/
def heapRead (h : MapHeap) (ref : Nat) : StringMap :=
  h.getD ref ∅

/-- The assignment `m[k] = v` through the reference `ref` of `m`. -/
def heapAssign (h : MapHeap) (ref : Nat) (k v : String) : MapHeap :=
  h.set ref ((heapRead h ref).insert k v)

/-- Source: `defaultLabels`, with maps as references: the map literal is a new
cell of the heap, and its reference is returned. -/
def defaultLabelsRef (name : String) (h : MapHeap) : Nat × MapHeap :=
  (h.length, h ++ [((∅ : StringMap).insert "app" "podset").insert "podset" name])

/-- Source: `labelsForPodSet`, with maps as references: `crLabels` is the
reference held in `cr.ObjectMeta.Labels` (`none` for a `nil` map) and `name` is
`cr.Name`; the loop assigns through the reference `labels` that
`defaultLabels` returned, which is the reference returned. -/
def labelsForPodSetRef (name : String) (crLabels : Option Nat) (h : MapHeap) : Nat × MapHeap :=
  let labels := (defaultLabelsRef name h).1
  let h1 := (defaultLabelsRef name h).2
  match crLabels with
  | none => (labels, h1)
  | some ref =>
    (labels, (heapRead h1 ref).entries.foldl (fun hp e => heapAssign hp labels e.1 e.2) h1)

/-! ## Lemmas on the helpers -/

theorem foldl_filterPods (items acc : List Pod) :
    items.foldl
      (fun pods pod => if pod.ObjectMeta.DeletionTimestamp = none then pods ++ [pod] else pods) acc
      = acc ++ items.filter (fun pod => decide (pod.ObjectMeta.DeletionTimestamp = none)) := by
  induction items generalizing acc with
  | nil => simp
  | cons pod rest ih =>
    rw [List.foldl_cons, ih]
    by_cases h : pod.ObjectMeta.DeletionTimestamp = none
    · simp [h]
    · simp [h]

/-- The loop of `listPods` computes the filter. -/
theorem filterPods_eq_filter (items : List Pod) :
    filterPods items
      = items.filter (fun pod => decide (pod.ObjectMeta.DeletionTimestamp = none)) := by
  unfold filterPods
  rw [foldl_filterPods]
  simp

theorem foldl_collectNames (pods : List Pod) (acc : List String) :
    pods.foldl (fun podNames pod => podNames ++ [pod.ObjectMeta.Name]) acc
      = acc ++ pods.map (fun pod => pod.ObjectMeta.Name) := by
  induction pods generalizing acc with
  | nil => simp
  | cons pod rest ih =>
    rw [List.foldl_cons, ih]
    simp

/-- The loop of `updateStatus` computes the map. -/
theorem collectNames_eq_map (pods : List Pod) :
    collectNames pods = pods.map (fun pod => pod.ObjectMeta.Name) := by
  unfold collectNames
  rw [foldl_collectNames]
  simp

/-- The conversion `int32(n)` is the identity on `[0, 2^31)`. -/
theorem int32_val_of_fits (n : Int) (h0 : 0 ≤ n) (h1 : n < 2147483648) : (int32 n).val = n := by
  show wrap32 n = n
  unfold wrap32
  split <;> omega

/-- Below `2^31` pods, `actualSize` is the number of pods. -/
theorem actualSize_eq_length (pods : List Pod) (h : (pods.length : Int) < 2147483648) :
    (actualSize pods).val = pods.length :=
  int32_val_of_fits _ (Int.ofNat_nonneg _) h

theorem actualSize_nil : (actualSize []).val = 0 := by
  decide

/-- The add-or-remove branch never indexes an empty slice. -/
theorem adjust_isSome (r : ReconcilePodSet σ) (cr : PodSet) (pods : List Pod) (store : σ) :
    ∃ act, adjust r cr pods store = some act := by
  unfold adjust
  simp only
  split
  · exact ⟨_, rfl⟩
  · split
    · rename_i h
      cases pods with
      | nil =>
        rw [actualSize_nil] at h
        omega
      | cons pod rest => exact ⟨_, rfl⟩
    · exact ⟨_, rfl⟩

/-- The pass after a successful fetch and a successful list. -/
theorem Reconcile_of_listed (r : ReconcilePodSet σ) (request : Request) (store : σ)
    (cr : PodSet) (items : List Pod)
    (hget : r.client.Get request.NamespacedName store = .ok cr)
    (hlist : r.client.List (listOps cr) store = .ok items) :
    Reconcile r request store =
      match adjust r cr (filterPods items) store with
      | none => none
      | some act =>
        match act.err with
        | some err =>
          some { result := ⟨false, 0⟩, err := some err, store := act.store
                 events := ⟨.Get request.NamespacedName, none⟩ :: [⟨.List (listOps cr), none⟩]
                   ++ act.events }
        | none =>
          some { result := ⟨false, 0⟩
                 err := (updateStatus r cr (filterPods items) act.store).err
                 store := (updateStatus r cr (filterPods items) act.store).store
                 events := ⟨.Get request.NamespacedName, none⟩ :: [⟨.List (listOps cr), none⟩]
                   ++ act.events ++ (updateStatus r cr (filterPods items) act.store).events } := by
  unfold Reconcile listPods
  simp only [hget, hlist]

theorem creates_updateStatus (r : ReconcilePodSet σ) (cr : PodSet) (pods : List Pod) (store : σ) :
    creates (updateStatus r cr pods store).events = [] := by
  unfold updateStatus
  simp only
  split <;> simp [creates]

theorem deletes_updateStatus (r : ReconcilePodSet σ) (cr : PodSet) (pods : List Pod) (store : σ) :
    deletes (updateStatus r cr pods store).events = [] := by
  unfold updateStatus
  simp only
  split <;> simp [deletes]

theorem creates_append (xs ys : List Event) : creates (xs ++ ys) = creates xs ++ creates ys := by
  simp [creates, List.filterMap_append]

theorem deletes_append (xs ys : List Event) : deletes (xs ++ ys) = deletes xs ++ deletes ys := by
  simp [deletes, List.filterMap_append]

theorem updates_append (xs ys : List Event) : updates (xs ++ ys) = updates xs ++ updates ys := by
  simp [updates, List.filterMap_append]

/-! ## The corrective step -/

/-- Claim C1. Grow step: when the fetch, the list and the ownership
registration succeed, the size is positive and the number of listed pods
without a deletion timestamp is below the size, the pass returns and issues
exactly one create call, of the registered pod, and no delete call, however
large the gap is. -/
theorem grow_step_creates_exactly_one (r : ReconcilePodSet σ) (request : Request) (store : σ)
    (cr : PodSet) (items : List Pod) (pod : Pod)
    (hget : r.client.Get request.NamespacedName store = .ok cr)
    (hlist : r.client.List (listOps cr) store = .ok items)
    (hreg : SetControllerReference cr (newNginxPod cr) r.scheme = .ok pod)
    (hpos : 0 < cr.Spec.Size.val)
    (hlt : ((items.countP fun p => decide (p.ObjectMeta.DeletionTimestamp = none) : Nat) : Int)
      < cr.Spec.Size.val) :
    ∃ p, Reconcile r request store = some p ∧ creates p.events = [pod] ∧ deletes p.events = [] := by
  have hlen : ((filterPods items).length : Int) < cr.Spec.Size.val := by
    rw [filterPods_eq_filter, ← List.countP_eq_length_filter]
    exact hlt
  have hsize : (actualSize (filterPods items)).val = (filterPods items).length :=
    actualSize_eq_length _ (lt_trans hlen cr.Spec.Size.hi)
  have hact : adjust r cr (filterPods items) store = some (addPod r cr store) := by
    unfold adjust
    simp only
    rw [if_pos]
    exact ⟨hpos, by rw [hsize]; exact hlen⟩
  have hadd : addPod r cr store =
      { err := (r.client.Create pod store).1, store := (r.client.Create pod store).2
        events := [⟨.SetControllerReference cr (newNginxPod cr), none⟩,
          ⟨.Create pod, (r.client.Create pod store).1⟩] } := by
    unfold addPod
    simp only [hreg]
  rw [Reconcile_of_listed r request store cr items hget hlist, hact, hadd]
  simp only
  cases (r.client.Create pod store).1 with
  | some err => exact ⟨_, rfl, by simp [creates], by simp [deletes]⟩
  | none =>
    refine ⟨_, rfl, ?_, ?_⟩
    · simp only [creates_append, creates_updateStatus]
      simp [creates]
    · simp only [deletes_append, deletes_updateStatus]
      simp [deletes]

/-- Witness of C1: size 2 and no pod, a gap of two, one create. -/
theorem grow_step_creates_exactly_one_witness :
    ∃ p, Reconcile (scripted (.ok (samplePodSet "demo" ∅ two32 none)) (.ok []) none) demoRequest 0
        = some p ∧
      creates p.events = [registeredPod (samplePodSet "demo" ∅ two32 none)] ∧
      deletes p.events = [] :=
  grow_step_creates_exactly_one (scripted (.ok (samplePodSet "demo" ∅ two32 none)) (.ok []) none)
    demoRequest 0 (samplePodSet "demo" ∅ two32 none) []
    (registeredPod (samplePodSet "demo" ∅ two32 none)) rfl rfl rfl (by decide) (by decide)

/-- Claim C2. Shrink step: when the fetch and the list succeed, the grow
condition does not hold, and `actualSize` is positive and above the size, the
pass returns and issues exactly one delete call and no create call; the pod
deleted is the first of the listed pods that have no deletion timestamp. -/
theorem shrink_step_deletes_first (r : ReconcilePodSet σ) (request : Request) (store : σ)
    (cr : PodSet) (items : List Pod)
    (hget : r.client.Get request.NamespacedName store = .ok cr)
    (hlist : r.client.List (listOps cr) store = .ok items)
    (hgrow : ¬ (0 < cr.Spec.Size.val ∧ (actualSize (filterPods items)).val < cr.Spec.Size.val))
    (hpos : 0 < (actualSize (filterPods items)).val)
    (hgt : cr.Spec.Size.val < (actualSize (filterPods items)).val) :
    ∃ p first, Reconcile r request store = some p ∧
      (items.filter fun pod => decide (pod.ObjectMeta.DeletionTimestamp = none)).head? = some first ∧
      deletes p.events = [first] ∧ creates p.events = [] := by
  rw [Reconcile_of_listed r request store cr items hget hlist]
  rw [← filterPods_eq_filter]
  cases hpods : filterPods items with
  | nil =>
    rw [hpods, actualSize_nil] at hpos
    omega
  | cons first rest =>
    have hact : adjust r cr (first :: rest) store =
        some { err := (r.client.Delete first store).1, store := (r.client.Delete first store).2
               events := [⟨.Delete first, (r.client.Delete first store).1⟩] } := by
      unfold adjust
      simp only
      rw [← hpods, if_neg hgrow, if_pos ⟨hpos, hgt⟩, hpods]
      rfl
    rw [hact]
    simp only
    cases (r.client.Delete first store).1 with
    | some err => exact ⟨_, first, rfl, rfl, by simp [deletes], by simp [creates]⟩
    | none =>
      refine ⟨_, first, rfl, rfl, ?_, ?_⟩
      · simp only [deletes_append, deletes_updateStatus]
        simp [deletes]
      · simp only [creates_append, creates_updateStatus]
        simp [creates]

/-- Witness of C2: size 0, three pods listed of which the first is terminating;
the pod deleted is `w2`. -/
theorem shrink_step_deletes_first_witness :
    ∃ p first,
      Reconcile (scripted (.ok (samplePodSet "demo" ∅ zero32 none))
        (.ok [samplePod "w1" (some 7), samplePod "w2" none, samplePod "w3" none]) none)
        demoRequest 0 = some p ∧
      ([samplePod "w1" (some 7), samplePod "w2" none, samplePod "w3" none].filter
        fun pod => decide (pod.ObjectMeta.DeletionTimestamp = none)).head? = some first ∧
      deletes p.events = [first] ∧ creates p.events = [] :=
  shrink_step_deletes_first
    (scripted (.ok (samplePodSet "demo" ∅ zero32 none))
      (.ok [samplePod "w1" (some 7), samplePod "w2" none, samplePod "w3" none]) none)
    demoRequest 0 (samplePodSet "demo" ∅ zero32 none)
    [samplePod "w1" (some 7), samplePod "w2" none, samplePod "w3" none]
    rfl rfl (by decide) (by decide) (by decide)

/-! ## Passes that change nothing -/

/-- Counterexample to C3 as stated: size 0, no pod, and a stored `podNames`
that is unset. The sizes agree and the stored names, read as a sequence, are
the names of the observed pods, yet the pass issues one update call, which
writes the empty slice. -/
theorem unset_status_is_written :
    actualSize (filterPods []) = (samplePodSet "demo" ∅ zero32 none).Spec.Size ∧
    (samplePodSet "demo" ∅ zero32 none).Status.PodNames.getD [] = collectNames (filterPods []) ∧
    (Reconcile (scripted (.ok (samplePodSet "demo" ∅ zero32 none)) (.ok []) none) demoRequest 0).map
        (fun p => updates p.events)
      = some [samplePodSet "demo" ∅ zero32 (some [])] :=
  ⟨by decide, by decide, rfl⟩

/-- Claim C3, amended. Idempotence: when the fetch and the list succeed,
`actualSize` equals the size, and the stored `podNames` is set and equals the
names of the observed pods in list order (with zero pods: the empty slice), the
pass issues no create, no delete and no update call, leaves the store as it
was, and returns success. -/
theorem settled_pass_is_noop (r : ReconcilePodSet σ) (request : Request) (store : σ)
    (cr : PodSet) (items : List Pod)
    (hget : r.client.Get request.NamespacedName store = .ok cr)
    (hlist : r.client.List (listOps cr) store = .ok items)
    (hsize : actualSize (filterPods items) = cr.Spec.Size)
    (hstatus : cr.Status.PodNames = some
      ((items.filter fun pod => decide (pod.ObjectMeta.DeletionTimestamp = none)).map
        fun pod => pod.ObjectMeta.Name)) :
    ∃ p, Reconcile r request store = some p ∧ creates p.events = [] ∧ deletes p.events = [] ∧
      updates p.events = [] ∧ p.err = none ∧ p.result = ⟨false, 0⟩ ∧ p.store = store := by
  have hact : adjust r cr (filterPods items) store
      = some { err := none, store := store, events := [] } := by
    unfold adjust
    simp only
    rw [hsize, if_neg (by omega), if_neg (by omega)]
  have hupd : updateStatus r cr (filterPods items) store
      = { err := none, store := store, events := [] } := by
    unfold updateStatus
    simp only
    rw [collectNames_eq_map, filterPods_eq_filter, hstatus, if_pos (by simp [DeepEqual])]
  rw [Reconcile_of_listed r request store cr items hget hlist, hact]
  simp only [hupd]
  exact ⟨_, rfl, by simp [creates], by simp [deletes], by simp [updates], rfl, rfl, rfl⟩

/-- Witness of C3, amended: size 2, pods `w1` and `w2`, stored names `[w1, w2]`. -/
theorem settled_pass_is_noop_witness :
    ∃ p, Reconcile (scripted (.ok (samplePodSet "demo" ∅ two32 (some ["w1", "w2"])))
        (.ok [samplePod "w1" none, samplePod "w2" none]) none) demoRequest 0 = some p ∧
      creates p.events = [] ∧ deletes p.events = [] ∧ updates p.events = [] ∧ p.err = none ∧
      p.result = ⟨false, 0⟩ ∧ p.store = 0 :=
  settled_pass_is_noop
    (scripted (.ok (samplePodSet "demo" ∅ two32 (some ["w1", "w2"])))
      (.ok [samplePod "w1" none, samplePod "w2" none]) none)
    demoRequest 0 (samplePodSet "demo" ∅ two32 (some ["w1", "w2"]))
    [samplePod "w1" none, samplePod "w2" none] rfl rfl (by decide) (by decide)

/-- Claim C4. Missing parent: when the fetch returns `NotFound`, the pass
returns `Result{}` with no error, for no requeue, after the fetch alone: no
list, create, delete or update call is issued and the store is as it was. -/
theorem missing_parent_is_success (r : ReconcilePodSet σ) (request : Request) (store : σ)
    (err : Error)
    (hget : r.client.Get request.NamespacedName store = .error err)
    (hnf : IsNotFound err = true) :
    ∃ p, Reconcile r request store = some p ∧
      p.err = none ∧ p.result = ⟨false, 0⟩ ∧ p.store = store ∧
      p.events = [⟨.Get request.NamespacedName, some err⟩] ∧
      lists p.events = [] ∧ creates p.events = [] ∧ deletes p.events = [] ∧
      updates p.events = [] := by
  unfold Reconcile
  simp only [hget, hnf, if_true]
  exact ⟨_, rfl, rfl, rfl, rfl, rfl, by simp [lists], by simp [creates], by simp [deletes],
    by simp [updates]⟩

/-- Witness of C4: the fetch of `ns1/demo` returns `NotFound`. -/
theorem missing_parent_is_success_witness :
    ∃ p, Reconcile (scripted (.error ⟨StatusReason.NotFound, "podset demo not found"⟩) (.ok []) none)
        demoRequest 0 = some p ∧
      p.err = none ∧ p.result = ⟨false, 0⟩ ∧ p.store = 0 ∧
      p.events = [⟨.Get demoRequest.NamespacedName,
        some ⟨StatusReason.NotFound, "podset demo not found"⟩⟩] ∧
      lists p.events = [] ∧ creates p.events = [] ∧ deletes p.events = [] ∧
      updates p.events = [] :=
  missing_parent_is_success
    (scripted (.error ⟨StatusReason.NotFound, "podset demo not found"⟩) (.ok []) none)
    demoRequest 0 ⟨StatusReason.NotFound, "podset demo not found"⟩ rfl rfl

/-! ## The error policy -/

theorem failed_err_ne_none (e : Event) (h : e.failed = true) : e.err ≠ none := by
  intro hnone
  unfold Event.failed at h
  rw [hnone] at h
  simp at h

theorem clean_append (xs ys : List Event) (hx : Clean xs) (hy : Clean ys) : Clean (xs ++ ys) := by
  intro e he
  rcases List.mem_append.mp he with h | h
  · exact hx e h
  · exact hy e h

theorem endsAtFailure_append (xs ys : List Event) (err : Option Error)
    (hx : Clean xs) (hu : updates xs = []) (hy : EndsAtFailure ys err) :
    EndsAtFailure (xs ++ ys) err := by
  rcases hy with ⟨hnone, hclean⟩ | ⟨pre, e, hys, hpre, hupd, hfail, herr⟩
  · exact Or.inl ⟨hnone, clean_append xs ys hx hclean⟩
  · refine Or.inr ⟨xs ++ pre, e, ?_, clean_append xs pre hx hpre, ?_, hfail, herr⟩
    · rw [hys, List.append_assoc]
    · rw [updates_append, hu, hupd]
      rfl

theorem endsAtFailure_clean (events : List Event) (h : EndsAtFailure events none) :
    Clean events := by
  rcases h with ⟨_, hclean⟩ | ⟨pre, e, _, _, _, hfail, herr⟩
  · exact hclean
  · exact absurd herr (failed_err_ne_none e hfail)

theorem endsAtFailure_single (call : Call) (err : Option Error)
    (h : (⟨call, err⟩ : Event).failed = true ∨ err = none) : EndsAtFailure [⟨call, err⟩] err := by
  by_cases hf : (⟨call, err⟩ : Event).failed = true
  · exact Or.inr ⟨[], ⟨call, err⟩, rfl, (by intro e he; cases he), rfl, hf, rfl⟩
  · rcases h with h | h
    · exact absurd h hf
    · refine Or.inl ⟨h, ?_⟩
      intro e he
      rw [List.mem_singleton] at he
      rw [he]
      simpa using hf

theorem failed_of_write (call : Call) (err : Option Error) (hcall : ∀ key, call ≠ .Get key) :
    (⟨call, err⟩ : Event).failed = true ∨ err = none := by
  cases err with
  | none => exact Or.inr rfl
  | some e =>
    left
    cases call with
    | Get key => exact absurd rfl (hcall key)
    | List opts => rfl
    | SetControllerReference owner object => rfl
    | Create obj => rfl
    | Delete obj => rfl
    | Update obj => rfl

theorem addPod_endsAtFailure (r : ReconcilePodSet σ) (cr : PodSet) (store : σ) :
    EndsAtFailure (addPod r cr store).events (addPod r cr store).err ∧
      updates (addPod r cr store).events = [] := by
  unfold addPod
  simp only
  split
  · rename_i err _
    exact ⟨endsAtFailure_single _ _ (Or.inl rfl), by simp [updates]⟩
  · rename_i pod _
    refine ⟨?_, by simp [updates]⟩
    exact endsAtFailure_append [⟨.SetControllerReference cr (newNginxPod cr), none⟩]
      [⟨.Create pod, (r.client.Create pod store).1⟩] _
      (by intro e he; rw [List.mem_singleton] at he; rw [he]; rfl) (by simp [updates])
      (endsAtFailure_single _ _ (failed_of_write _ _ (by intro key h; cases h)))

theorem removePod_endsAtFailure (r : ReconcilePodSet σ) (pods : List Pod) (store : σ)
    (act : Step σ) (h : removePod r pods store = some act) :
    EndsAtFailure act.events act.err ∧ updates act.events = [] := by
  cases pods with
  | nil => simp [removePod] at h
  | cons pod rest =>
    simp only [removePod, Option.some.injEq] at h
    subst h
    exact ⟨endsAtFailure_single _ _ (failed_of_write _ _ (by intro key h; cases h)),
      by simp [updates]⟩

theorem adjust_endsAtFailure (r : ReconcilePodSet σ) (cr : PodSet) (pods : List Pod) (store : σ)
    (act : Step σ) (h : adjust r cr pods store = some act) :
    EndsAtFailure act.events act.err ∧ updates act.events = [] := by
  unfold adjust at h
  simp only at h
  split at h
  · simp only [Option.some.injEq] at h
    subst h
    exact addPod_endsAtFailure r cr store
  · split at h
    · exact removePod_endsAtFailure r pods store act h
    · simp only [Option.some.injEq] at h
      subst h
      exact ⟨Or.inl ⟨rfl, (by intro e he; cases he)⟩, rfl⟩

theorem updateStatus_endsAtFailure (r : ReconcilePodSet σ) (cr : PodSet) (pods : List Pod)
    (store : σ) :
    EndsAtFailure (updateStatus r cr pods store).events (updateStatus r cr pods store).err := by
  unfold updateStatus
  simp only
  split
  · exact Or.inl ⟨rfl, (by intro e he; cases he)⟩
  · exact endsAtFailure_single _ _ (failed_of_write _ _ (by intro key h; cases h))

/-- Every pass returns, and its trace ends at the first failure. -/
theorem Reconcile_endsAtFailure (r : ReconcilePodSet σ) (request : Request) (store : σ) :
    ∃ p, Reconcile r request store = some p ∧ EndsAtFailure p.events p.err := by
  cases hget : r.client.Get request.NamespacedName store with
  | error err =>
    unfold Reconcile
    simp only [hget]
    by_cases hnf : IsNotFound err = true
    · rw [if_pos hnf]
      refine ⟨_, rfl, Or.inl ⟨rfl, ?_⟩⟩
      intro e he
      rw [List.mem_singleton] at he
      rw [he]
      simp [Event.failed, hnf]
    · rw [if_neg hnf]
      refine ⟨_, rfl, endsAtFailure_single _ _ (Or.inl ?_)⟩
      simpa [Event.failed] using hnf
  | ok cr =>
    have hfetch : Clean [(⟨.Get request.NamespacedName, none⟩ : Event)] := by
      intro e he
      rw [List.mem_singleton] at he
      rw [he]
      rfl
    cases hlist : r.client.List (listOps cr) store with
    | error err =>
      unfold Reconcile listPods
      simp only [hget, hlist]
      exact ⟨_, rfl, endsAtFailure_append [⟨.Get request.NamespacedName, none⟩]
        [⟨.List (listOps cr), some err⟩] _ hfetch (by simp [updates])
        (endsAtFailure_single _ _ (Or.inl rfl))⟩
    | ok items =>
      have hreads : Clean [(⟨.Get request.NamespacedName, none⟩ : Event),
          ⟨.List (listOps cr), none⟩] := by
        intro e he
        simp only [List.mem_cons, List.mem_singleton, List.not_mem_nil, or_false] at he
        rcases he with he | he <;> rw [he] <;> rfl
      obtain ⟨act, hact⟩ := adjust_isSome r cr (filterPods items) store
      obtain ⟨hpol, hupd⟩ := adjust_endsAtFailure r cr (filterPods items) store act hact
      rw [Reconcile_of_listed r request store cr items hget hlist, hact]
      simp only
      cases herr : act.err with
      | some err =>
        refine ⟨_, rfl, ?_⟩
        rw [herr] at hpol
        exact endsAtFailure_append _ _ _ hreads (by simp [updates]) hpol
      | none =>
        refine ⟨_, rfl, ?_⟩
        rw [herr] at hpol
        have hclean := endsAtFailure_clean act.events hpol
        exact endsAtFailure_append _ _ _ (clean_append _ _ hreads hclean)
          (by rw [updates_append, hupd]; simp [updates])
          (updateStatus_endsAtFailure r cr (filterPods items) act.store)

/-- In a trace that ends at the first failure, a failed call is the last call
and its error is the one returned. -/
theorem endsAtFailure_last (events : List Event) (err : Option Error)
    (h : EndsAtFailure events err) (pre : List Event) (e : Event) (post : List Event)
    (hsplit : events = pre ++ e :: post) (hfail : e.failed = true) :
    post = [] ∧ err = e.err := by
  have hmem : e ∈ events := by
    rw [hsplit]
    simp
  rcases h with ⟨_, hclean⟩ | ⟨pre', e', hev, hpre, _, _, herr⟩
  · have := hclean e hmem
    rw [hfail] at this
    cases this
  · rcases List.eq_nil_or_concat post with hpost | ⟨init, l, hpost⟩
    · subst hpost
      rw [hev] at hsplit
      have := List.append_inj' hsplit rfl
      have he : e' = e := by simpa using this.2
      exact ⟨rfl, by rw [← herr, he]⟩
    · rw [List.concat_eq_append] at hpost
      subst hpost
      rw [hev] at hsplit
      have hre : pre ++ e :: (init ++ [l]) = (pre ++ e :: init) ++ [l] := by simp
      rw [hre] at hsplit
      have := (List.append_inj' hsplit rfl).1
      have hin : e ∈ pre' := by
        rw [this]
        simp
      have := hpre e hin
      rw [hfail] at this
      cases this

/-- Claim C5. Error policy: every pass returns; a call that fails (a fetch with
an error other than `NotFound`, a list, the ownership registration, a create, a
delete or a status update with any error) is the last call of the pass and its
error is the error returned; after a failed create or delete the pass holds no
update call; and the pass returns an error if and only if one of its calls
failed. -/
theorem error_policy (r : ReconcilePodSet σ) (request : Request) (store : σ) :
    ∃ p, Reconcile r request store = some p ∧
      (∀ pre e post, p.events = pre ++ e :: post → e.failed = true →
        post = [] ∧ p.err = e.err) ∧
      (∀ e ∈ p.events, e.failed = true →
        ∀ obj, e.call = .Create obj ∨ e.call = .Delete obj → updates p.events = []) ∧
      (p.err ≠ none ↔ ∃ e ∈ p.events, e.failed = true) := by
  obtain ⟨p, hp, hpol⟩ := Reconcile_endsAtFailure r request store
  refine ⟨p, hp, ?_, ?_, ?_⟩
  · intro pre e post hsplit hfail
    exact endsAtFailure_last p.events p.err hpol pre e post hsplit hfail
  · intro e he hfail obj hcall
    rcases hpol with ⟨_, hclean⟩ | ⟨pre, e', hev, hpre, hupd, _, _⟩
    · have := hclean e he
      rw [hfail] at this
      cases this
    · have hee : e = e' := by
        rw [hev] at he
        rcases List.mem_append.mp he with hin | hin
        · have := hpre e hin
          rw [hfail] at this
          cases this
        · exact List.mem_singleton.mp hin
      rw [hev, updates_append, hupd, ← hee]
      rcases hcall with hc | hc <;> simp [updates, hc]
  · constructor
    · intro hne
      rcases hpol with ⟨hnone, _⟩ | ⟨pre, e, hev, _, _, hfail, _⟩
      · exact absurd hnone hne
      · exact ⟨e, by rw [hev]; simp, hfail⟩
    · rintro ⟨e, he, hfail⟩
      obtain ⟨pre, post, hsplit⟩ := List.append_of_mem he
      have := (endsAtFailure_last p.events p.err hpol pre e post hsplit hfail).2
      rw [this]
      exact failed_err_ne_none e hfail

/-! ## Listing -/

theorem adjust_deletes_head (r : ReconcilePodSet σ) (cr : PodSet) (pods : List Pod) (store : σ)
    (act : Step σ) (h : adjust r cr pods store = some act) :
    ∀ pod ∈ deletes act.events, pods.head? = some pod := by
  unfold adjust at h
  simp only at h
  split at h
  · simp only [Option.some.injEq] at h
    subst h
    unfold addPod
    simp only
    split <;> simp [deletes]
  · split at h
    · cases pods with
      | nil => simp [removePod] at h
      | cons first rest =>
        simp only [removePod, Option.some.injEq] at h
        subst h
        simp [deletes]
    · simp only [Option.some.injEq] at h
      subst h
      simp [deletes]

/-- Claim C6. Deletion filtering: when the list call returns `items`,
`listPods` returns exactly the pods of `items` that have no deletion
timestamp, in the order of `items`; a pod with a deletion timestamp is not
among them; `actualSize` is the `int32` of their number, which is their number
whenever that is below `2^31`; and a pod that a pass deletes is one of `items`
that has no deletion timestamp. -/
theorem listPods_drops_terminating (r : ReconcilePodSet σ) (cr : PodSet) (store : σ)
    (items : List Pod) (hlist : r.client.List (listOps cr) store = .ok items) :
    (listPods r cr store).1
        = .ok (items.filter fun pod => decide (pod.ObjectMeta.DeletionTimestamp = none)) ∧
      (items.filter fun pod => decide (pod.ObjectMeta.DeletionTimestamp = none)).Sublist items ∧
      (∀ pod ∈ items, pod.ObjectMeta.DeletionTimestamp ≠ none →
        pod ∉ items.filter fun pod => decide (pod.ObjectMeta.DeletionTimestamp = none)) ∧
      actualSize (filterPods items)
        = int32 (items.countP fun pod => decide (pod.ObjectMeta.DeletionTimestamp = none)) ∧
      (((items.countP fun pod => decide (pod.ObjectMeta.DeletionTimestamp = none) : Nat) : Int)
          < 2147483648 →
        (actualSize (filterPods items)).val
          = items.countP fun pod => decide (pod.ObjectMeta.DeletionTimestamp = none)) ∧
      (∀ request, r.client.Get request.NamespacedName store = .ok cr →
        ∃ p, Reconcile r request store = some p ∧
          ∀ pod ∈ deletes p.events, pod ∈ items ∧ pod.ObjectMeta.DeletionTimestamp = none) := by
  have hcount : (filterPods items).length
      = items.countP fun pod => decide (pod.ObjectMeta.DeletionTimestamp = none) := by
    rw [filterPods_eq_filter, List.countP_eq_length_filter]
  refine ⟨?_, List.filter_sublist _, ?_, ?_, ?_, ?_⟩
  · unfold listPods
    simp only [hlist]
    rw [filterPods_eq_filter]
  · intro pod _ hterm hmem
    have := (List.mem_filter.mp hmem).2
    simp only [decide_eq_true_eq] at this
    exact hterm this
  · unfold actualSize
    rw [hcount]
  · intro hfit
    rw [← hcount] at hfit ⊢
    exact actualSize_eq_length _ hfit
  · intro request hget
    obtain ⟨act, hact⟩ := adjust_isSome r cr (filterPods items) store
    have hhead := adjust_deletes_head r cr (filterPods items) store act hact
    have hsel : ∀ pod ∈ deletes act.events,
        pod ∈ items ∧ pod.ObjectMeta.DeletionTimestamp = none := by
      intro pod hpod
      have hin : pod ∈ filterPods items := by
        have hh := hhead pod hpod
        cases hfp : filterPods items with
        | nil => rw [hfp] at hh; cases hh
        | cons first rest =>
          rw [hfp] at hh
          simp only [List.head?_cons, Option.some.injEq] at hh
          rw [hh]
          simp
      rw [filterPods_eq_filter] at hin
      have := List.mem_filter.mp hin
      exact ⟨this.1, by simpa using this.2⟩
    rw [Reconcile_of_listed r request store cr items hget hlist, hact]
    simp only
    cases act.err with
    | some err =>
      refine ⟨_, rfl, ?_⟩
      intro pod hpod
      simp only [deletes_append] at hpod
      apply hsel
      simpa [deletes] using hpod
    | none =>
      refine ⟨_, rfl, ?_⟩
      intro pod hpod
      simp only [deletes_append, deletes_updateStatus] at hpod
      apply hsel
      simpa [deletes] using hpod

/-- Witness of C6: three pods listed, the first of them terminating. -/
theorem listPods_drops_terminating_witness :
    (listPods (scripted (.ok (samplePodSet "demo" ∅ zero32 none))
        (.ok [samplePod "w1" (some 7), samplePod "w2" none, samplePod "w3" none]) none)
        (samplePodSet "demo" ∅ zero32 none) 0).1
      = .ok [samplePod "w2" none, samplePod "w3" none] :=
  (listPods_drops_terminating
    (scripted (.ok (samplePodSet "demo" ∅ zero32 none))
      (.ok [samplePod "w1" (some 7), samplePod "w2" none, samplePod "w3" none]) none)
    (samplePodSet "demo" ∅ zero32 none) 0
    [samplePod "w1" (some 7), samplePod "w2" none, samplePod "w3" none] rfl).1

/-! ## Labels and selectors -/

/-- Looking up a key after the range loop: the entry of the map ranged over,
if it has one for the key, and otherwise what the labels held before. -/
theorem lookup_rangeAssign (entries : List (Sigma fun _ : String => String))
    (hnd : entries.NodupKeys) (labels : StringMap) (k : String) :
    (rangeAssign entries labels).lookup k
      = match entries.dlookup k with
        | some v => some v
        | none => labels.lookup k := by
  induction entries generalizing labels with
  | nil => rfl
  | cons e rest ih =>
    obtain ⟨hnot, hrest⟩ := List.nodupKeys_cons.mp hnd
    have hstep : rangeAssign (e :: rest) labels = rangeAssign rest (labels.insert e.1 e.2) := rfl
    rw [hstep, ih hrest]
    by_cases hk : k = e.1
    · subst hk
      have h1 : List.dlookup e.1 rest = none := List.dlookup_eq_none.mpr hnot
      have h2 : List.dlookup e.1 (e :: rest) = some e.2 := by
        cases e
        exact List.dlookup_cons_eq _ _ _
      rw [h1, h2]
      exact AList.lookup_insert labels
    · rw [List.dlookup_cons_ne rest e hk]
      cases List.dlookup k rest with
      | some v => rfl
      | none => exact AList.lookup_insert_ne hk

/-- The order in which the range loop visits the entries of a map does not
change what any key is bound to afterwards. -/
theorem lookup_rangeAssign_perm (m : StringMap) (order : List (Sigma fun _ : String => String))
    (hperm : order.Perm m.entries) (labels : StringMap) (k : String) :
    (rangeAssign order labels).lookup k = (rangeAssign m.entries labels).lookup k := by
  have hnd : order.NodupKeys := (List.perm_nodupKeys hperm).mpr m.nodupKeys
  rw [lookup_rangeAssign order hnd, lookup_rangeAssign m.entries m.nodupKeys,
    List.perm_dlookup k hnd m.nodupKeys hperm]

theorem lookup_defaultLabels (cr : PodSet) (k : String) :
    (defaultLabels cr).lookup k
      = if k = "app" then some "podset"
        else if k = "podset" then some cr.ObjectMeta.Name else none := by
  unfold defaultLabels
  by_cases hp : k = "podset"
  · subst hp
    rw [AList.lookup_insert, if_neg (by decide), if_pos rfl]
  · rw [AList.lookup_insert_ne hp, if_neg hp]
    by_cases ha : k = "app"
    · subst ha
      rw [AList.lookup_insert, if_pos rfl]
    · rw [AList.lookup_insert_ne ha, if_neg ha]
      rfl

/-- Claim C7. Label merge: at every key, `labelsForPodSet cr` holds the label
of `cr` if `cr` has one for the key; otherwise `podset` at the key `app` and
the name of `cr` at the key `podset`; and nothing at any other key. -/
theorem labelsForPodSet_lookup (cr : PodSet) (k : String) :
    (labelsForPodSet cr).lookup k
      = match cr.ObjectMeta.Labels.lookup k with
        | some v => some v
        | none =>
          if k = "app" then some "podset"
          else if k = "podset" then some cr.ObjectMeta.Name else none := by
  unfold labelsForPodSet
  rw [lookup_rangeAssign _ cr.ObjectMeta.Labels.nodupKeys, lookup_defaultLabels]
  rfl

/-- When the loop of `SelectorFromSet` runs to its end, it has built one
requirement for each label, in order. -/
theorem collectRequirements_some (entries : List (Sigma fun _ : String => String))
    (reqs : List Requirement) (h : collectRequirements entries = some reqs) :
    reqs = entries.map fun e => ⟨e.1, e.2⟩ := by
  induction entries generalizing reqs with
  | nil =>
    simp only [collectRequirements, Option.some.injEq] at h
    rw [← h]
    rfl
  | cons e rest ih =>
    unfold collectRequirements at h
    cases hreq : NewRequirement e.1 e.2 with
    | none => simp [hreq] at h
    | some req =>
      cases hrest : collectRequirements rest with
      | none => simp [hreq, hrest] at h
      | some tail =>
        simp only [hreq, hrest, Option.some.injEq] at h
        have hreq' : req = ⟨e.1, e.2⟩ := by
          unfold NewRequirement at hreq
          split at hreq
          · exact (Option.some.inj hreq).symm
          · cases hreq
        rw [← h, ih tail hrest, hreq']
        rfl

/-- A requirement of the selector built from a label set is a label of the set. -/
theorem mem_SelectorFromSet (ls : StringMap) (req : Requirement)
    (h : req ∈ SelectorFromSet ls) :
    (⟨req.key, req.value⟩ : Sigma fun _ : String => String) ∈ ls.entries := by
  unfold SelectorFromSet at h
  cases hreqs : collectRequirements ls.entries with
  | none =>
    rw [hreqs] at h
    cases h
  | some reqs =>
    rw [hreqs] at h
    simp only at h
    rw [List.mem_insertionSort, collectRequirements_some _ _ hreqs] at h
    obtain ⟨e, he, rfl⟩ := List.mem_map.mp h
    cases e
    exact he

/-- A selector built from a label set matches that label set. -/
theorem selectorFromSet_matches_self (ls : StringMap) :
    (SelectorFromSet ls).Matches ls = true := by
  unfold Selector.Matches
  rw [List.all_eq_true]
  intro req hreq
  have : req.value ∈ ls.lookup req.key :=
    AList.mem_lookup_iff.mpr (mem_SelectorFromSet ls req hreq)
  simpa using this

/-- The registration leaves the namespace and the labels of the object alone. -/
theorem SetControllerReference_meta (owner : PodSet) (object pod : Pod) (scheme : Scheme)
    (h : SetControllerReference owner object scheme = .ok pod) :
    pod.ObjectMeta.Namespace = object.ObjectMeta.Namespace ∧
      pod.ObjectMeta.Labels = object.ObjectMeta.Labels := by
  unfold SetControllerReference at h
  split at h
  · cases h
  · simp only at h
    split at h
    · cases h
    · simp only [Except.ok.injEq] at h
      subst h
      exact ⟨rfl, rfl⟩

/-- A pod that `addPod` passes to the create call carries the labels and the
namespace the worker factory gave it. -/
theorem created_pod_meta (r : ReconcilePodSet σ) (cr : PodSet) (store : σ) (pod : Pod)
    (hpod : pod ∈ creates (addPod r cr store).events) :
    pod.ObjectMeta.Labels = labelsForPodSet cr ∧
      pod.ObjectMeta.Namespace = cr.ObjectMeta.Namespace := by
  unfold addPod at hpod
  simp only at hpod
  split at hpod
  · simp [creates] at hpod
  · rename_i created hreg
    simp only [creates, List.filterMap_cons, List.filterMap_nil, List.mem_singleton] at hpod
    rw [hpod]
    obtain ⟨hns, hlabels⟩ := SetControllerReference_meta cr (newNginxPod cr) created r.scheme hreg
    exact ⟨hlabels, hns⟩

/-- Claim C8. Label symmetry: the labels of a newly built worker are
`labelsForPodSet cr`, the selector of the list query is built from that same
label set, the worker and the query carry the namespace of `cr`; so the query
selects the new worker, and selects every pod that `addPod` passes to the
create call. -/
theorem label_symmetry (cr : PodSet) :
    (newNginxPod cr).ObjectMeta.Labels = labelsForPodSet cr ∧
      (listOps cr).LabelSelector = SelectorFromSet (labelsForPodSet cr) ∧
      (newNginxPod cr).ObjectMeta.Namespace = cr.ObjectMeta.Namespace ∧
      (listOps cr).Namespace = cr.ObjectMeta.Namespace ∧
      (listOps cr).Selects (newNginxPod cr) = true ∧
      ∀ (r : ReconcilePodSet σ) (store : σ), ∀ pod ∈ creates (addPod r cr store).events,
        pod.ObjectMeta.Labels = labelsForPodSet cr ∧
          pod.ObjectMeta.Namespace = cr.ObjectMeta.Namespace ∧
          (listOps cr).Selects pod = true := by
  have hsel : ∀ pod : Pod, pod.ObjectMeta.Namespace = cr.ObjectMeta.Namespace →
      pod.ObjectMeta.Labels = labelsForPodSet cr → (listOps cr).Selects pod = true := by
    intro pod hns hlabels
    unfold ListOptions.Selects listOps
    simp only [hns, hlabels, selectorFromSet_matches_self, or_true, decide_True, Bool.and_self]
  refine ⟨rfl, rfl, rfl, rfl, hsel _ rfl rfl, ?_⟩
  intro r store pod hpod
  obtain ⟨hlabels, hns⟩ := created_pod_meta r cr store pod hpod
  exact ⟨hlabels, hns, hsel _ hns hlabels⟩

/-- A selector built from a label set whose labels are all valid, and that
binds `k` to `v`, rejects every label set that does not bind `k` to `v`. -/
theorem selectorFromSet_rejects (ls labels : StringMap) (k v : String)
    (hvalid : collectRequirements ls.entries ≠ none)
    (hsel : ls.lookup k = some v) (hlab : labels.lookup k ≠ some v) :
    (SelectorFromSet ls).Matches labels = false := by
  have hentry : (⟨k, v⟩ : Sigma fun _ : String => String) ∈ ls.entries :=
    AList.mem_lookup_iff.mp (by rw [hsel]; rfl)
  rw [Bool.eq_false_iff]
  intro hall
  unfold Selector.Matches SelectorFromSet at hall
  rw [List.all_eq_true] at hall
  cases hreqs : collectRequirements ls.entries with
  | none => exact hvalid hreqs
  | some reqs =>
    rw [hreqs] at hall
    simp only at hall
    have hmem : (⟨k, v⟩ : Requirement) ∈ reqs := by
      rw [collectRequirements_some _ _ hreqs]
      exact List.mem_map.mpr ⟨⟨k, v⟩, hentry, rfl⟩
    have := hall ⟨k, v⟩ ((List.mem_insertionSort _).mpr hmem)
    simp only [decide_eq_true_eq] at this
    exact hlab this

/-- The selector of a PodSet selects a worker of another PodSet that carries
the label `podset` with the name of the first: the PodSets `a` and `b` live in
the same namespace and have different names, `a` has no label and `b` has the
label `podset: a`; the selector derived from `a` selects the worker built for
`b`, also after the owner of that worker is registered. -/
theorem selector_leaks_on_podset_label :
    (samplePodSet "a" ∅ two32 none).ObjectMeta.Name
        ≠ (samplePodSet "b" ((∅ : StringMap).insert "podset" "a") two32 none).ObjectMeta.Name ∧
      (samplePodSet "a" ∅ two32 none).ObjectMeta.Namespace
        = (samplePodSet "b" ((∅ : StringMap).insert "podset" "a") two32 none).ObjectMeta.Namespace ∧
      (listOps (samplePodSet "a" ∅ two32 none)).Selects
        (newNginxPod (samplePodSet "b" ((∅ : StringMap).insert "podset" "a") two32 none)) = true ∧
      (listOps (samplePodSet "a" ∅ two32 none)).Selects
        (registeredPod (samplePodSet "b" ((∅ : StringMap).insert "podset" "a") two32 none))
          = true := by
  decide

/-- The selector of a PodSet whose name is not a valid label value is empty and
selects every pod of the namespace: the PodSet named with 64 letters `a` has
no label, `b` has none either, and the selector derived from the first selects
the worker built for `b`. -/
theorem selector_matches_all_on_long_name :
    (listOps (samplePodSet (String.mk (List.replicate 64 'a')) ∅ zero32 none)).LabelSelector = [] ∧
      (listOps (samplePodSet (String.mk (List.replicate 64 'a')) ∅ zero32 none)).Selects
        (registeredPod (samplePodSet "b" ∅ two32 none)) = true := by
  decide

/-- Claim C9, at the failing input. The store holds the PodSets `ns1/a` (size
0, no label) and `ns1/b` (size 2, label `podset: a`). A pass for `b` creates a
worker for `b`; in the store it leaves, `listPods` for `a` returns that worker,
whose owner is `b`, and a pass for `a` deletes it. So the selector derived
from `a` matches a worker created for `b`. -/
theorem listPods_returns_foreign_pod :
    (Reconcile storeReconciler requestB sharedStore).map
        (fun p => (creates p.events).map fun pod => pod.ObjectMeta.OwnerReferences)
      = some [[⟨"PodSet", "b", true⟩]] ∧
    (listPods storeReconciler (samplePodSet "a" ∅ zero32 (some []))
        (afterPasses storeReconciler requestB 1 sharedStore)).1.toOption.map
        (fun pods => pods.map fun pod => (pod.ObjectMeta.Name, pod.ObjectMeta.OwnerReferences))
      = some [("b-1", [⟨"PodSet", "b", true⟩])] ∧
    (Reconcile storeReconciler requestA (afterPasses storeReconciler requestB 1 sharedStore)).map
        (fun p => (deletes p.events).map fun pod =>
          (pod.ObjectMeta.Name, pod.ObjectMeta.OwnerReferences))
      = some [("b-1", [⟨"PodSet", "b", true⟩])] := by
  decide

/-- How far the isolation of workers holds: for two PodSets with different
names, neither of which has a label of its own with the key `podset`, and the
first of which has only valid labels (its name is a valid label value), the
selector derived from the first selects neither the worker built for the
second nor any pod that `addPod` passes to the create call for the second. -/
theorem selector_excludes_other_podset (A B : PodSet)
    (hname : A.ObjectMeta.Name ≠ B.ObjectMeta.Name)
    (hvalid : collectRequirements (labelsForPodSet A).entries ≠ none)
    (hA : A.ObjectMeta.Labels.lookup "podset" = none)
    (hB : B.ObjectMeta.Labels.lookup "podset" = none) :
    (listOps A).Selects (newNginxPod B) = false ∧
      ∀ (r : ReconcilePodSet σ) (store : σ), ∀ pod ∈ creates (addPod r B store).events,
        (listOps A).Selects pod = false := by
  have hlookA : (labelsForPodSet A).lookup "podset" = some A.ObjectMeta.Name := by
    rw [labelsForPodSet_lookup, hA]
    rfl
  have hlookB : (labelsForPodSet B).lookup "podset" = some B.ObjectMeta.Name := by
    rw [labelsForPodSet_lookup, hB]
    rfl
  have hrej : ∀ pod : Pod, pod.ObjectMeta.Labels = labelsForPodSet B →
      (listOps A).Selects pod = false := by
    intro pod hlabels
    unfold ListOptions.Selects listOps
    simp only
    rw [hlabels, selectorFromSet_rejects (labelsForPodSet A) (labelsForPodSet B) "podset"
      A.ObjectMeta.Name hvalid hlookA
      (by rw [hlookB]; intro h; exact hname (Option.some.inj h).symm)]
    exact Bool.and_false _
  refine ⟨hrej _ rfl, ?_⟩
  intro r store pod hpod
  exact hrej pod ((created_pod_meta r B store pod hpod).1)

/-- The isolation of workers at the PodSets `a` and `b`, the second with the
label `tier: web`. -/
theorem selector_excludes_other_podset_witness :
    (listOps (samplePodSet "a" ∅ two32 none)).Selects
        (newNginxPod (samplePodSet "b" ((∅ : StringMap).insert "tier" "web") two32 none)) = false ∧
      ∀ (r : ReconcilePodSet Nat) (store : Nat),
        ∀ pod ∈ creates
            (addPod r (samplePodSet "b" ((∅ : StringMap).insert "tier" "web") two32 none)
              store).events,
          (listOps (samplePodSet "a" ∅ two32 none)).Selects pod = false :=
  selector_excludes_other_podset (samplePodSet "a" ∅ two32 none)
    (samplePodSet "b" ((∅ : StringMap).insert "tier" "web") two32 none)
    (by decide) (by decide) (by decide) (by decide)

/-! ## The status step -/

/-- Counterexample to C10 as stated: size 2, no pod, and a stored `podNames`
that is unset. The pass creates a pod without error and reaches the status
step; the stored names, read as a sequence of strings, equal the names of the
observed pods (both are empty), yet an update call is issued. -/
theorem update_issued_for_unset_status :
    (adjust (scripted (.ok (samplePodSet "demo" ∅ two32 none)) (.ok []) none)
        (samplePodSet "demo" ∅ two32 none) (filterPods []) 0).map (fun act => act.err)
      = some none ∧
    (samplePodSet "demo" ∅ two32 none).Status.PodNames.getD []
      = (filterPods []).map (fun pod => pod.ObjectMeta.Name) ∧
    (Reconcile (scripted (.ok (samplePodSet "demo" ∅ two32 none)) (.ok []) none) demoRequest 0).map
        (fun p => updates p.events)
      = some [samplePodSet "demo" ∅ two32 (some [])] :=
  ⟨rfl, by decide, rfl⟩

/-- Claim C10, amended. Status refresh: in a pass that reaches the status step
(the fetch and the list succeed and the add-or-remove branch returns no
error), no update call is issued when the stored `podNames` is set and equals
the names of the observed pods, in list order, as they were before the pass
acted; otherwise, also when the stored `podNames` is unset and there is no
pod, exactly one update call is issued, and it writes the fetched PodSet with
`podNames` set to those names. -/
theorem status_refresh (r : ReconcilePodSet σ) (request : Request) (store : σ)
    (cr : PodSet) (items : List Pod) (act : Step σ)
    (hget : r.client.Get request.NamespacedName store = .ok cr)
    (hlist : r.client.List (listOps cr) store = .ok items)
    (hact : adjust r cr (filterPods items) store = some act)
    (hok : act.err = none) :
    ∃ p, Reconcile r request store = some p ∧
      (cr.Status.PodNames = some
          ((items.filter fun pod => decide (pod.ObjectMeta.DeletionTimestamp = none)).map
            fun pod => pod.ObjectMeta.Name) →
        updates p.events = []) ∧
      (cr.Status.PodNames ≠ some
          ((items.filter fun pod => decide (pod.ObjectMeta.DeletionTimestamp = none)).map
            fun pod => pod.ObjectMeta.Name) →
        updates p.events = [{ cr with
          Status := ⟨some
            ((items.filter fun pod => decide (pod.ObjectMeta.DeletionTimestamp = none)).map
              fun pod => pod.ObjectMeta.Name)⟩ }]) := by
  have hupd := (adjust_endsAtFailure r cr (filterPods items) store act hact).2
  rw [Reconcile_of_listed r request store cr items hget hlist, hact]
  simp only [hok]
  refine ⟨_, rfl, ?_, ?_⟩
  · intro hstored
    simp only [updates_append, hupd]
    unfold updateStatus
    simp only
    rw [collectNames_eq_map, filterPods_eq_filter, hstored, if_pos (by simp [DeepEqual])]
    simp [updates]
  · intro hstored
    simp only [updates_append, hupd]
    unfold updateStatus
    simp only
    rw [collectNames_eq_map, filterPods_eq_filter]
    have hne : DeepEqual cr.Status.PodNames (some
        ((items.filter fun pod => decide (pod.ObjectMeta.DeletionTimestamp = none)).map
          fun pod => pod.ObjectMeta.Name)) = false := by
      cases hnames : cr.Status.PodNames with
      | none => rfl
      | some stored =>
        rw [hnames] at hstored
        simp only [DeepEqual, decide_eq_false_iff_not]
        intro h
        exact hstored (by rw [h])
    rw [hne]
    simp [updates]

/-- Witness of C10, amended: size 2, one pod `w1`, stored names `[]`; the pass
creates a pod and then writes the names `[w1]` of the pods it had listed. -/
theorem status_refresh_witness :
    ∃ p, Reconcile (scripted (.ok (samplePodSet "demo" ∅ two32 (some [])))
        (.ok [samplePod "w1" none]) none) demoRequest 0 = some p ∧
      ((samplePodSet "demo" ∅ two32 (some [])).Status.PodNames = some
          (([samplePod "w1" none].filter
            fun pod => decide (pod.ObjectMeta.DeletionTimestamp = none)).map
            fun pod => pod.ObjectMeta.Name) →
        updates p.events = []) ∧
      ((samplePodSet "demo" ∅ two32 (some [])).Status.PodNames ≠ some
          (([samplePod "w1" none].filter
            fun pod => decide (pod.ObjectMeta.DeletionTimestamp = none)).map
            fun pod => pod.ObjectMeta.Name) →
        updates p.events = [{ samplePodSet "demo" ∅ two32 (some []) with
          Status := ⟨some
            (([samplePod "w1" none].filter
              fun pod => decide (pod.ObjectMeta.DeletionTimestamp = none)).map
              fun pod => pod.ObjectMeta.Name)⟩ }]) :=
  status_refresh
    (scripted (.ok (samplePodSet "demo" ∅ two32 (some []))) (.ok [samplePod "w1" none]) none)
    demoRequest 0 (samplePodSet "demo" ∅ two32 (some [])) [samplePod "w1" none]
    (addPod
      (scripted (.ok (samplePodSet "demo" ∅ two32 (some []))) (.ok [samplePod "w1" none]) none)
      (samplePodSet "demo" ∅ two32 (some [])) 0)
    rfl rfl rfl rfl

/-! ## Passes over the in-memory store -/

/-- The list options, and so the observed pods, depend on the metadata of the
PodSet alone. -/
theorem listOps_congr (cr cr' : PodSet) (h : cr'.ObjectMeta = cr.ObjectMeta) :
    listOps cr' = listOps cr := by
  unfold listOps labelsForPodSet defaultLabels
  rw [h]

theorem observed_congr (cr cr' : PodSet) (h : cr'.ObjectMeta = cr.ObjectMeta) (s : Store) :
    observed cr' s = observed cr s := by
  unfold observed
  rw [listOps_congr cr cr' h]

/-- A pod with the namespace and the labels of the PodSet is selected by its
list options. -/
theorem selects_of_meta (cr : PodSet) (pod : Pod)
    (hns : pod.ObjectMeta.Namespace = cr.ObjectMeta.Namespace)
    (hlabels : pod.ObjectMeta.Labels = labelsForPodSet cr) :
    (listOps cr).Selects pod = true := by
  unfold ListOptions.Selects listOps
  simp only [hns, hlabels, selectorFromSet_matches_self, or_true, decide_True, Bool.and_self]

theorem DeepEqual_eq_true (stored : Option (List String)) (names : List String)
    (h : DeepEqual stored (some names) = true) : stored = some names := by
  cases stored with
  | none => simp [DeepEqual] at h
  | some x =>
    simp only [DeepEqual, decide_eq_true_eq] at h
    rw [h]

/-- A PodSet the store returns for a key has that key. -/
theorem Store.Get_key (s : Store) (key : NamespacedName) (cr : PodSet)
    (hget : s.Get key = .ok cr) : cr.ObjectMeta.key = key := by
  unfold Store.Get at hget
  split at hget
  · rename_i o hfind
    simp only [Except.ok.injEq] at hget
    subst hget
    simpa using List.find?_some hfind
  · cases hget

theorem find?_replace (l : List PodSet) (key : NamespacedName) (obj cr : PodSet)
    (hkey : obj.ObjectMeta.key = key)
    (h : l.find? (fun o => decide (o.ObjectMeta.key = key)) = some cr) :
    (l.map fun o => if o.ObjectMeta.key = obj.ObjectMeta.key then obj else o).find?
        (fun o => decide (o.ObjectMeta.key = key)) = some obj := by
  induction l with
  | nil => cases h
  | cons a rest ih =>
    by_cases ha : a.ObjectMeta.key = key
    · simp [List.find?, ha, hkey]
    · have hrest : rest.find? (fun o => decide (o.ObjectMeta.key = key)) = some cr := by
        simpa [List.find?, ha] using h
      rw [hkey] at ih ⊢
      have hih := ih hrest
      simpa [List.find?, ha] using hih

/-- Updating a PodSet the store holds succeeds; the store then returns the new
object for the key, and its pods are as before. -/
theorem Store.Get_Update (s : Store) (key : NamespacedName) (cr obj : PodSet)
    (hget : s.Get key = .ok cr) (hkey : obj.ObjectMeta.key = key) :
    (s.Update obj).1 = none ∧ (s.Update obj).2.Get key = .ok obj ∧
      (s.Update obj).2.pods = s.pods := by
  have hfind : s.podSets.find? (fun o => decide (o.ObjectMeta.key = key)) = some cr := by
    unfold Store.Get at hget
    split at hget
    · rename_i o hfind
      simp only [Except.ok.injEq] at hget
      rw [hfind, hget]
    · cases hget
  have hany : s.podSets.any (fun o => decide (o.ObjectMeta.key = obj.ObjectMeta.key)) = true := by
    rw [List.any_eq_true]
    have hcr := List.find?_some hfind
    exact ⟨cr, List.mem_of_find?_eq_some hfind, by rw [hkey]; simpa using hcr⟩
  unfold Store.Update
  rw [if_pos hany]
  refine ⟨rfl, ?_, rfl⟩
  unfold Store.Get
  simp only
  rw [find?_replace s.podSets key obj cr hkey hfind]

/-- The status step over the store: it returns no error, leaves the pods
alone, and leaves the PodSet with its metadata and spec and with the names of
`pods` as its stored names. -/
theorem updateStatus_store (cr : PodSet) (pods : List Pod) (s : Store)
    (key : NamespacedName) (hget : s.Get key = .ok cr) :
    (updateStatus storeReconciler cr pods s).err = none ∧
      (updateStatus storeReconciler cr pods s).store.pods = s.pods ∧
      ∃ cr', (updateStatus storeReconciler cr pods s).store.Get key = .ok cr' ∧
        cr'.ObjectMeta = cr.ObjectMeta ∧ cr'.Spec = cr.Spec ∧
        cr'.Status.PodNames = some (collectNames pods) := by
  unfold updateStatus
  simp only
  split
  · rename_i heq
    exact ⟨rfl, rfl, cr, hget, rfl, rfl, DeepEqual_eq_true _ _ heq⟩
  · have hkey := Store.Get_key s key cr hget
    obtain ⟨h1, h2, h3⟩ := Store.Get_Update s key cr
      { cr with Status := { cr.Status with PodNames := some (collectNames pods) } } hget hkey
    exact ⟨h1, h3, _, h2, rfl, rfl, rfl⟩

/-- Appending a pod that is selected and not terminating adds it to the
observed pods. -/
theorem observed_append (cr : PodSet) (s s' : Store) (pod : Pod)
    (hpods : s'.pods = s.pods ++ [pod]) (hsel : (listOps cr).Selects pod = true)
    (hlive : pod.ObjectMeta.DeletionTimestamp = none) :
    observed cr s' = observed cr s ++ [pod] := by
  unfold observed
  rw [hpods, filterPods_eq_filter, filterPods_eq_filter, List.filter_append, List.filter_append,
    List.filter_cons_of_pos hsel, List.filter_nil, List.filter_cons_of_pos (by simpa using hlive),
    List.filter_nil]

/-- The grow step over the store: one pod more is observed afterwards. -/
theorem store_grow_step (cr : PodSet) (request : Request) (s : Store)
    (hholds : Holds cr request s) (hpos : 0 < cr.Spec.Size.val)
    (hlt : ((observed cr s).length : Int) < cr.Spec.Size.val) :
    ∃ p, Reconcile storeReconciler request s = some p ∧ p.err = none ∧
      (creates p.events).length = 1 ∧ deletes p.events = [] ∧
      Holds cr request p.store ∧
      (observed cr p.store).length = (observed cr s).length + 1 := by
  obtain ⟨cr', hget, hmeta, hspec⟩ := hholds
  have hobs := observed_congr cr cr' hmeta s
  have hrec := Reconcile_of_listed storeReconciler request s cr'
    (s.pods.filter (listOps cr').Selects) hget rfl
  rw [show filterPods (s.pods.filter (listOps cr').Selects) = observed cr s from hobs] at hrec
  have hsize : (actualSize (observed cr s)).val = (observed cr s).length :=
    actualSize_eq_length _ (lt_trans hlt cr.Spec.Size.hi)
  have hact : adjust storeReconciler cr' (observed cr s) s
      = some (addPod storeReconciler cr' s) := by
    unfold adjust
    simp only
    rw [if_pos]
    rw [hspec, hsize]
    exact ⟨hpos, hlt⟩
  have hadd : addPod storeReconciler cr' s =
      { err := none, store := (Store.Create (registeredPod cr') s).2
        events := [⟨.SetControllerReference cr' (newNginxPod cr'), none⟩,
          ⟨.Create (registeredPod cr'), none⟩] } := rfl
  obtain ⟨herr, hpods, cr'', hget', hmeta', hspec', _⟩ :=
    updateStatus_store cr' (observed cr s) (Store.Create (registeredPod cr') s).2
      request.NamespacedName hget
  rw [hrec, hact, hadd]
  simp only
  refine ⟨_, rfl, herr, ?_, ?_, ⟨cr'', hget', hmeta'.trans hmeta, hspec'.trans hspec⟩, ?_⟩
  · simp only [creates_append, creates_updateStatus]
    simp [creates]
  · simp only [deletes_append, deletes_updateStatus]
    simp [deletes]
  · have hsel : (listOps cr).Selects
        { registeredPod cr' with
          ObjectMeta := { (registeredPod cr').ObjectMeta with
            Name := (registeredPod cr').ObjectMeta.GenerateName ++ toString s.counter } }
          = true := by
      apply selects_of_meta
      · show cr'.ObjectMeta.Namespace = cr.ObjectMeta.Namespace
        rw [hmeta]
      · show labelsForPodSet cr' = labelsForPodSet cr
        unfold labelsForPodSet defaultLabels
        rw [hmeta]
    rw [observed_append cr s _ _ hpods hsel rfl, List.length_append]
    rfl

/-- The steady step over the store: with as many observed pods as the size, a
pass creates and deletes nothing, leaves the pods alone, and leaves the names
of the observed pods as the stored names. -/
theorem store_steady_step (cr : PodSet) (request : Request) (s : Store)
    (hholds : Holds cr request s)
    (heq : ((observed cr s).length : Int) = cr.Spec.Size.val) :
    ∃ p, Reconcile storeReconciler request s = some p ∧ p.err = none ∧
      creates p.events = [] ∧ deletes p.events = [] ∧
      Holds cr request p.store ∧ p.store.pods = s.pods ∧
      ∃ cr', p.store.Get request.NamespacedName = .ok cr' ∧
        cr'.Status.PodNames = some ((observed cr s).map fun pod => pod.ObjectMeta.Name) := by
  obtain ⟨cr', hget, hmeta, hspec⟩ := hholds
  have hobs := observed_congr cr cr' hmeta s
  have hrec := Reconcile_of_listed storeReconciler request s cr'
    (s.pods.filter (listOps cr').Selects) hget rfl
  rw [show filterPods (s.pods.filter (listOps cr').Selects) = observed cr s from hobs] at hrec
  have hsize : (actualSize (observed cr s)).val = (observed cr s).length :=
    actualSize_eq_length _ (by rw [heq]; exact cr.Spec.Size.hi)
  have hact : adjust storeReconciler cr' (observed cr s) s
      = some { err := none, store := s, events := [] } := by
    unfold adjust
    simp only
    rw [hspec, hsize, if_neg (by omega), if_neg (by omega)]
  obtain ⟨herr, hpods, cr'', hget', hmeta', hspec', hnames⟩ :=
    updateStatus_store cr' (observed cr s) s request.NamespacedName hget
  rw [hrec, hact]
  simp only
  refine ⟨_, rfl, herr, ?_, ?_, ⟨cr'', hget', hmeta'.trans hmeta, hspec'.trans hspec⟩, hpods,
    cr'', hget', ?_⟩
  · simp only [creates_append, creates_updateStatus]
    simp [creates]
  · simp only [deletes_append, deletes_updateStatus]
    simp [deletes]
  · rw [hnames, collectNames_eq_map]

/-- Dropping pods from the store drops them from the observed pods. -/
theorem observed_filter (cr : PodSet) (s s' : Store) (q : Pod → Bool)
    (hpods : s'.pods = s.pods.filter q) : observed cr s' = (observed cr s).filter q := by
  unfold observed
  rw [hpods, filterPods_eq_filter, filterPods_eq_filter, List.filter_filter, List.filter_filter,
    List.filter_filter, List.filter_filter]
  congr 1
  funext pod
  cases q pod <;> simp

theorem observed_sublist (cr : PodSet) (s : Store) : (observed cr s).Sublist s.pods := by
  unfold observed
  rw [filterPods_eq_filter]
  exact (List.filter_sublist _).trans (List.filter_sublist _)

/-- The shrink step over the store: one pod fewer is observed afterwards. -/
theorem store_shrink_step (cr : PodSet) (request : Request) (s : Store)
    (hholds : Holds cr request s)
    (hnd : (s.pods.map fun pod => pod.ObjectMeta.key).Nodup)
    (hpos : 0 < (observed cr s).length)
    (hgt : cr.Spec.Size.val < ((observed cr s).length : Int))
    (hfit : ((observed cr s).length : Int) < 2147483648) :
    ∃ p, Reconcile storeReconciler request s = some p ∧ p.err = none ∧
      creates p.events = [] ∧ (deletes p.events).length = 1 ∧
      Holds cr request p.store ∧
      (p.store.pods.map fun pod => pod.ObjectMeta.key).Nodup ∧
      (observed cr p.store).length + 1 = (observed cr s).length := by
  obtain ⟨cr', hget, hmeta, hspec⟩ := hholds
  have hobs := observed_congr cr cr' hmeta s
  have hrec := Reconcile_of_listed storeReconciler request s cr'
    (s.pods.filter (listOps cr').Selects) hget rfl
  rw [show filterPods (s.pods.filter (listOps cr').Selects) = observed cr s from hobs] at hrec
  have hsize : (actualSize (observed cr s)).val = (observed cr s).length :=
    actualSize_eq_length _ hfit
  have hsub := observed_sublist cr s
  cases hfirst : observed cr s with
  | nil =>
    rw [hfirst] at hpos
    cases hpos
  | cons first rest =>
    rw [hfirst] at hsub
    have hmem : first ∈ s.pods := hsub.subset (List.mem_cons_self first rest)
    have hany : s.pods.any (fun o => decide (o.ObjectMeta.key = first.ObjectMeta.key)) = true := by
      rw [List.any_eq_true]
      exact ⟨first, hmem, by simp⟩
    have hdel : Store.Delete first s = (none,
        { s with pods := s.pods.filter fun o => !decide (o.ObjectMeta.key = first.ObjectMeta.key) })
        := by
      unfold Store.Delete
      rw [if_pos hany]
    have hact : adjust storeReconciler cr' (first :: rest) s
        = some { err := none, store := (Store.Delete first s).2
                 events := [⟨.Delete first, none⟩] } := by
      unfold adjust
      simp only
      rw [← hfirst, hspec, hsize, if_neg (by omega), if_pos ⟨by omega, hgt⟩, hfirst]
      show some _ = some _
      rw [show storeReconciler.client.Delete first s = Store.Delete first s from rfl, hdel]
    rw [hdel] at hact
    have hget1 : Store.Get request.NamespacedName
        { s with pods := s.pods.filter fun o => !decide (o.ObjectMeta.key = first.ObjectMeta.key) }
        = .ok cr' := hget
    obtain ⟨herr, hpods, cr'', hget', hmeta', hspec', _⟩ :=
      updateStatus_store cr' (first :: rest)
        { s with pods := s.pods.filter fun o => !decide (o.ObjectMeta.key = first.ObjectMeta.key) }
        request.NamespacedName hget1
    have hkeys : ((first :: rest).map fun pod => pod.ObjectMeta.key).Nodup :=
      hnd.sublist (hsub.map _)
    rw [hfirst] at hrec
    rw [hrec, hact]
    simp only
    refine ⟨_, rfl, herr, ?_, ?_, ⟨cr'', hget', hmeta'.trans hmeta, hspec'.trans hspec⟩, ?_, ?_⟩
    · simp only [creates_append, creates_updateStatus]
      simp [creates]
    · simp only [deletes_append, deletes_updateStatus]
      simp [deletes]
    · rw [hpods]
      exact hnd.sublist ((List.filter_sublist _).map _)
    · rw [observed_filter cr s _ _ hpods, hfirst]
      have hrest : rest.filter (fun o => !decide (o.ObjectMeta.key = first.ObjectMeta.key))
          = rest := by
        rw [List.filter_eq_self]
        intro o ho
        have hne : first.ObjectMeta.key ≠ o.ObjectMeta.key := by
          intro h
          rw [List.map_cons, List.nodup_cons] at hkeys
          exact hkeys.1 (by rw [h]; exact List.mem_map_of_mem _ ho)
        simpa using fun h => hne h.symm
      rw [List.filter_cons_of_neg (by simp), hrest]
      rfl

theorem observed_of_pods (cr : PodSet) (s s' : Store) (h : s'.pods = s.pods) :
    observed cr s' = observed cr s := by
  unfold observed
  rw [h]

theorem reconcileStore_of_pass (r : ReconcilePodSet σ) (request : Request) (store : σ)
    (p : Pass σ) (h : Reconcile r request store = some p) :
    reconcileStore r request store = p.store := by
  unfold reconcileStore
  rw [h]

/-- Growing from no observed pod: after `k` passes the store still holds the
PodSet and `min k size` pods are observed. -/
theorem grow_invariant (cr : PodSet) (request : Request) (s : Store)
    (hholds : Holds cr request s) (hsize : 0 ≤ cr.Spec.Size.val)
    (hzero : observed cr s = []) (k : Nat) :
    Holds cr request (afterPasses storeReconciler request k s) ∧
      ((observed cr (afterPasses storeReconciler request k s)).length : Int)
        = min (k : Int) cr.Spec.Size.val := by
  induction k with
  | zero =>
    refine ⟨hholds, ?_⟩
    show ((observed cr s).length : Int) = _
    rw [hzero]
    simp only [List.length_nil]
    omega
  | succ k ih =>
    obtain ⟨hh, hlen⟩ := ih
    show Holds cr request (reconcileStore storeReconciler request _) ∧
      ((observed cr (reconcileStore storeReconciler request _)).length : Int) = _
    by_cases hk : (k : Int) < cr.Spec.Size.val
    · obtain ⟨p, hp, _, _, _, hh', hlen'⟩ :=
        store_grow_step cr request _ hh (by omega) (by omega)
      rw [reconcileStore_of_pass _ _ _ p hp]
      refine ⟨hh', ?_⟩
      rw [hlen']
      push_cast
      omega
    · obtain ⟨p, hp, _, _, _, hh', hpods, _⟩ :=
        store_steady_step cr request _ hh (by omega)
      rw [reconcileStore_of_pass _ _ _ p hp]
      refine ⟨hh', ?_⟩
      rw [observed_of_pods cr _ _ hpods, hlen]
      push_cast
      omega

/-- Claim C11. Grow convergence: start from a store that holds a PodSet of
size `N >= 0` with no observed worker, and run reconcile passes in a row. After
`k <= N` passes exactly `k` workers are observed, so `N` workers are observed
after exactly `N` passes; each of the first `N` passes returns without error
and issues exactly one create call; every later pass issues no create call and
leaves `N` workers observed. -/
theorem grow_convergence (cr : PodSet) (request : Request) (s : Store)
    (hget : s.Get request.NamespacedName = .ok cr)
    (hsize : 0 ≤ cr.Spec.Size.val)
    (hzero : observed cr s = []) :
    (∀ k : Nat, (k : Int) ≤ cr.Spec.Size.val →
      (observed cr (afterPasses storeReconciler request k s)).length = k) ∧
    (∀ k : Nat, (k : Int) < cr.Spec.Size.val →
      ∃ p, Reconcile storeReconciler request (afterPasses storeReconciler request k s) = some p ∧
        p.err = none ∧ (creates p.events).length = 1 ∧ deletes p.events = []) ∧
    (∀ k : Nat, cr.Spec.Size.val ≤ (k : Int) →
      ((observed cr (afterPasses storeReconciler request k s)).length : Int) = cr.Spec.Size.val ∧
      ∃ p, Reconcile storeReconciler request (afterPasses storeReconciler request k s) = some p ∧
        p.err = none ∧ creates p.events = [] ∧ deletes p.events = []) := by
  have hholds : Holds cr request s := ⟨cr, hget, rfl, rfl⟩
  refine ⟨?_, ?_, ?_⟩
  · intro k hk
    have := (grow_invariant cr request s hholds hsize hzero k).2
    omega
  · intro k hk
    obtain ⟨hh, hlen⟩ := grow_invariant cr request s hholds hsize hzero k
    obtain ⟨p, hp, herr, hc, hd, _, _⟩ := store_grow_step cr request _ hh (by omega) (by omega)
    exact ⟨p, hp, herr, hc, hd⟩
  · intro k hk
    obtain ⟨hh, hlen⟩ := grow_invariant cr request s hholds hsize hzero k
    have hlen' : ((observed cr (afterPasses storeReconciler request k s)).length : Int)
        = cr.Spec.Size.val := by omega
    obtain ⟨p, hp, herr, hc, hd, _, _, _⟩ := store_steady_step cr request _ hh hlen'
    exact ⟨hlen', p, hp, herr, hc, hd⟩

/-- Witness of C11: the store of the scenario, a PodSet of size 2 and no pod. -/
theorem grow_convergence_witness :
    (∀ k : Nat, (k : Int) ≤ two32.val →
      (observed (samplePodSet "demo" ∅ two32 none)
        (afterPasses storeReconciler demoRequest k demoStore)).length = k) ∧
    (∀ k : Nat, (k : Int) < two32.val →
      ∃ p, Reconcile storeReconciler demoRequest (afterPasses storeReconciler demoRequest k demoStore)
          = some p ∧
        p.err = none ∧ (creates p.events).length = 1 ∧ deletes p.events = []) ∧
    (∀ k : Nat, two32.val ≤ (k : Int) →
      ((observed (samplePodSet "demo" ∅ two32 none)
        (afterPasses storeReconciler demoRequest k demoStore)).length : Int) = two32.val ∧
      ∃ p, Reconcile storeReconciler demoRequest (afterPasses storeReconciler demoRequest k demoStore)
          = some p ∧
        p.err = none ∧ creates p.events = [] ∧ deletes p.events = []) :=
  grow_convergence (samplePodSet "demo" ∅ two32 none) demoRequest demoStore rfl (by decide) rfl

theorem deleteCount_of_pass (r : ReconcilePodSet σ) (request : Request) (store : σ)
    (p : Pass σ) (h : Reconcile r request store = some p) :
    deleteCount r request store = (deletes p.events).length := by
  unfold deleteCount
  rw [h]

/-- Shrinking from `M` observed pods: after `k` passes the store still holds
the PodSet, its pods still have distinct keys, `max (M - k) size` pods are
observed, and `min k (M - size)` delete calls were issued. -/
theorem shrink_invariant (cr : PodSet) (request : Request) (s : Store)
    (hholds : Holds cr request s) (hsize : 0 ≤ cr.Spec.Size.val)
    (hnd : (s.pods.map fun pod => pod.ObjectMeta.key).Nodup)
    (hgt : cr.Spec.Size.val < ((observed cr s).length : Int))
    (hfit : ((observed cr s).length : Int) < 2147483648) (k : Nat) :
    Holds cr request (afterPasses storeReconciler request k s) ∧
      ((afterPasses storeReconciler request k s).pods.map fun pod => pod.ObjectMeta.key).Nodup ∧
      ((observed cr (afterPasses storeReconciler request k s)).length : Int)
        = max (((observed cr s).length : Int) - k) cr.Spec.Size.val ∧
      (deletesDuring storeReconciler request k s : Int)
        = min (k : Int) (((observed cr s).length : Int) - cr.Spec.Size.val) := by
  induction k with
  | zero =>
    refine ⟨hholds, hnd, ?_, ?_⟩
    · show ((observed cr s).length : Int) = _
      omega
    · show ((0 : Nat) : Int) = _
      omega
  | succ k ih =>
    obtain ⟨hh, hkeys, hlen, hcount⟩ := ih
    show Holds cr request (reconcileStore storeReconciler request _) ∧
      ((reconcileStore storeReconciler request _).pods.map fun pod => pod.ObjectMeta.key).Nodup ∧
      ((observed cr (reconcileStore storeReconciler request _)).length : Int) = _ ∧
      ((deletesDuring storeReconciler request k s
        + deleteCount storeReconciler request (afterPasses storeReconciler request k s) : Nat) : Int)
        = _
    by_cases hk : (k : Int) < ((observed cr s).length : Int) - cr.Spec.Size.val
    · obtain ⟨p, hp, _, _, hd, hh', hkeys', hlen'⟩ :=
        store_shrink_step cr request _ hh hkeys (by omega) (by omega) (by omega)
      rw [reconcileStore_of_pass _ _ _ p hp, deleteCount_of_pass _ _ _ p hp, hd]
      refine ⟨hh', hkeys', ?_, ?_⟩
      · omega
      · push_cast
        omega
    · obtain ⟨p, hp, _, _, hd, hh', hpods, _⟩ :=
        store_steady_step cr request _ hh (by omega)
      rw [reconcileStore_of_pass _ _ _ p hp, deleteCount_of_pass _ _ _ p hp, hd]
      refine ⟨hh', by rw [hpods]; exact hkeys, ?_, ?_⟩
      · rw [observed_of_pods cr _ _ hpods, hlen]
        push_cast
        omega
      · simp only [List.length_nil, Nat.add_zero]
        omega

/-- Claim C12. Shrink convergence: start from a store that holds a PodSet of
size `N >= 0` with `M > N` observed workers (`M` below `2^31`, the pods of the
store having distinct keys), and run reconcile passes in a row. Each of the
first `M - N` passes returns without error and issues exactly one delete call
and no create call; after `k <= M - N` passes `M - k` workers are observed;
from `M - N` passes on `N` workers are observed and a pass issues no delete
and no create call; and the passes issue `M - N` delete calls in total. -/
theorem shrink_convergence (cr : PodSet) (request : Request) (s : Store)
    (hget : s.Get request.NamespacedName = .ok cr)
    (hsize : 0 ≤ cr.Spec.Size.val)
    (hnd : (s.pods.map fun pod => pod.ObjectMeta.key).Nodup)
    (hgt : cr.Spec.Size.val < ((observed cr s).length : Int))
    (hfit : ((observed cr s).length : Int) < 2147483648) :
    (∀ k : Nat, (k : Int) < ((observed cr s).length : Int) - cr.Spec.Size.val →
      ((observed cr (afterPasses storeReconciler request k s)).length : Int)
        = ((observed cr s).length : Int) - k ∧
      ∃ p, Reconcile storeReconciler request (afterPasses storeReconciler request k s) = some p ∧
        p.err = none ∧ (deletes p.events).length = 1 ∧ creates p.events = []) ∧
    (∀ k : Nat, ((observed cr s).length : Int) - cr.Spec.Size.val ≤ (k : Int) →
      ((observed cr (afterPasses storeReconciler request k s)).length : Int) = cr.Spec.Size.val ∧
      (deletesDuring storeReconciler request k s : Int)
        = ((observed cr s).length : Int) - cr.Spec.Size.val ∧
      ∃ p, Reconcile storeReconciler request (afterPasses storeReconciler request k s) = some p ∧
        p.err = none ∧ deletes p.events = [] ∧ creates p.events = []) := by
  have hholds : Holds cr request s := ⟨cr, hget, rfl, rfl⟩
  refine ⟨?_, ?_⟩
  · intro k hk
    obtain ⟨hh, hkeys, hlen, _⟩ := shrink_invariant cr request s hholds hsize hnd hgt hfit k
    obtain ⟨p, hp, herr, hc, hd, _, _, _⟩ :=
      store_shrink_step cr request _ hh hkeys (by omega) (by omega) (by omega)
    exact ⟨by omega, p, hp, herr, hd, hc⟩
  · intro k hk
    obtain ⟨hh, _, hlen, hcount⟩ := shrink_invariant cr request s hholds hsize hnd hgt hfit k
    have hlen' : ((observed cr (afterPasses storeReconciler request k s)).length : Int)
        = cr.Spec.Size.val := by omega
    obtain ⟨p, hp, herr, hc, hd, _, _, _⟩ := store_steady_step cr request _ hh hlen'
    exact ⟨hlen', by omega, p, hp, herr, hd, hc⟩

/-- Witness of C12: size 2 and four observed workers (a fifth pod is
terminating); after two passes two workers are observed and two delete calls
were issued. -/
theorem shrink_convergence_witness :
    ((observed (samplePodSet "demo" ∅ two32 (some []))
        (afterPasses storeReconciler demoRequest 2 crowdedStore)).length : Int)
      = (samplePodSet "demo" ∅ two32 (some [])).Spec.Size.val ∧
    (deletesDuring storeReconciler demoRequest 2 crowdedStore : Int)
      = ((observed (samplePodSet "demo" ∅ two32 (some [])) crowdedStore).length : Int)
        - (samplePodSet "demo" ∅ two32 (some [])).Spec.Size.val ∧
    ∃ p, Reconcile storeReconciler demoRequest (afterPasses storeReconciler demoRequest 2 crowdedStore)
        = some p ∧
      p.err = none ∧ deletes p.events = [] ∧ creates p.events = [] :=
  (shrink_convergence (samplePodSet "demo" ∅ two32 (some [])) demoRequest crowdedStore rfl
    (by decide) (by decide) (by decide) (by decide)).2 2 (by decide)

/-- Claim C13. Status catch-up: over a store that holds a PodSet with as many
observed workers as its size, one more pass issues no create and no delete
call, leaves the observed workers as they are, and leaves their names, in list
order, as the stored `podNames`. In the scenario of the PodSet `ns1/demo` of
size 2 with no worker: pass 1 creates one worker, pass 2 creates a second one,
pass 3 creates and deletes nothing, and after it the stored `podNames` is the
names of the two workers. -/
theorem status_catch_up :
    (∀ (cr : PodSet) (request : Request) (s : Store),
      s.Get request.NamespacedName = .ok cr →
      ((observed cr s).length : Int) = cr.Spec.Size.val →
      ∃ p, Reconcile storeReconciler request s = some p ∧ p.err = none ∧
        creates p.events = [] ∧ deletes p.events = [] ∧
        observed cr p.store = observed cr s ∧
        ∃ cr', p.store.Get request.NamespacedName = .ok cr' ∧
          cr'.Status.PodNames
            = some ((observed cr p.store).map fun pod => pod.ObjectMeta.Name)) ∧
    ((Reconcile storeReconciler demoRequest demoStore).map
        (fun p => ((creates p.events).length, (deletes p.events).length)) = some (1, 0) ∧
      (observed (samplePodSet "demo" ∅ two32 none)
          (afterPasses storeReconciler demoRequest 1 demoStore)).map
        (fun pod => pod.ObjectMeta.Name) = ["demo-1"] ∧
      (Reconcile storeReconciler demoRequest (afterPasses storeReconciler demoRequest 1 demoStore)).map
        (fun p => ((creates p.events).length, (deletes p.events).length)) = some (1, 0) ∧
      (observed (samplePodSet "demo" ∅ two32 none)
          (afterPasses storeReconciler demoRequest 2 demoStore)).map
        (fun pod => pod.ObjectMeta.Name) = ["demo-1", "demo-2"] ∧
      (Reconcile storeReconciler demoRequest (afterPasses storeReconciler demoRequest 2 demoStore)).map
        (fun p => ((creates p.events).length, (deletes p.events).length)) = some (0, 0) ∧
      (observed (samplePodSet "demo" ∅ two32 none)
          (afterPasses storeReconciler demoRequest 3 demoStore)).map
        (fun pod => pod.ObjectMeta.Name) = ["demo-1", "demo-2"] ∧
      ((afterPasses storeReconciler demoRequest 3 demoStore).Get demoRequest.NamespacedName).toOption.map
        (fun cr => cr.Status.PodNames) = some (some ["demo-1", "demo-2"])) := by
  refine ⟨?_, by decide, by decide, by decide, by decide, by decide, by decide, by decide⟩
  intro cr request s hget heq
  obtain ⟨p, hp, herr, hc, hd, _, hpods, cr', hget', hnames⟩ :=
    store_steady_step cr request s ⟨cr, hget, rfl, rfl⟩ heq
  have hobs := observed_of_pods cr s p.store hpods
  exact ⟨p, hp, herr, hc, hd, hobs, cr', hget', by rw [hnames, hobs]⟩

/-- Witness of C13: the general statement at the store of the scenario after
two passes. -/
theorem status_catch_up_witness :
    ∃ p, Reconcile storeReconciler demoRequest (afterPasses storeReconciler demoRequest 2 demoStore)
        = some p ∧ p.err = none ∧
      creates p.events = [] ∧ deletes p.events = [] ∧
      observed (samplePodSet "demo" ∅ two32 (some ["demo-1"])) p.store
        = observed (samplePodSet "demo" ∅ two32 (some ["demo-1"]))
          (afterPasses storeReconciler demoRequest 2 demoStore) ∧
      ∃ cr', p.store.Get demoRequest.NamespacedName = .ok cr' ∧
        cr'.Status.PodNames
          = some ((observed (samplePodSet "demo" ∅ two32 (some ["demo-1"])) p.store).map
            fun pod => pod.ObjectMeta.Name) :=
  status_catch_up.1 (samplePodSet "demo" ∅ two32 (some ["demo-1"])) demoRequest
    (afterPasses storeReconciler demoRequest 2 demoStore) rfl (by decide)

/-! ## The worker factory -/

/-- Claim C14. Worker factory: the pod built for `cr` has the name template
`cr.Name` followed by `-`, the namespace of `cr`, the labels
`labelsForPodSet cr`, exactly one container, and no owner reference. `addPod`
registers `cr` as the owner of that pod first; only a pod that came back from
the registration is passed to the create call, and it is the built pod with
the controller reference to `cr` as its one owner reference. -/
theorem worker_factory (cr : PodSet) :
    (newNginxPod cr).ObjectMeta.GenerateName = cr.ObjectMeta.Name ++ "-" ∧
      (newNginxPod cr).ObjectMeta.Namespace = cr.ObjectMeta.Namespace ∧
      (newNginxPod cr).ObjectMeta.Labels = labelsForPodSet cr ∧
      (newNginxPod cr).Spec.Containers.length = 1 ∧
      (newNginxPod cr).ObjectMeta.OwnerReferences = [] ∧
      ∀ (r : ReconcilePodSet σ) (store : σ), ∀ pod ∈ creates (addPod r cr store).events,
        ∃ kind, r.scheme.PodSetKind = some kind ∧
          pod = { newNginxPod cr with
            ObjectMeta := { (newNginxPod cr).ObjectMeta with
              OwnerReferences := [NewControllerRef cr kind] } } ∧
          (addPod r cr store).events
            = [⟨.SetControllerReference cr (newNginxPod cr), none⟩,
                ⟨.Create pod, (r.client.Create pod store).1⟩] := by
  refine ⟨rfl, rfl, rfl, rfl, rfl, ?_⟩
  intro r store pod hpod
  cases hkind : r.scheme.PodSetKind with
  | none =>
    have hreg : SetControllerReference cr (newNginxPod cr) r.scheme
        = .error ⟨StatusReason.Unknown, "no kind is registered for the type v1alpha1.PodSet"⟩ := by
      unfold SetControllerReference
      rw [hkind]
    unfold addPod at hpod
    simp only [hreg] at hpod
    simp [creates] at hpod
  | some kind =>
    have hreg : SetControllerReference cr (newNginxPod cr) r.scheme
        = .ok { newNginxPod cr with
            ObjectMeta := { (newNginxPod cr).ObjectMeta with
              OwnerReferences := [NewControllerRef cr kind] } } := by
      unfold SetControllerReference
      rw [hkind]
      rfl
    unfold addPod at hpod ⊢
    simp only [hreg] at hpod ⊢
    simp only [creates, List.filterMap_cons, List.filterMap_nil, List.mem_singleton] at hpod
    exact ⟨kind, rfl, hpod, by rw [hpod]⟩

/-! ## What a pass leaves alone -/

theorem updates_updateStatus (r : ReconcilePodSet σ) (cr : PodSet) (pods : List Pod) (store : σ) :
    ∀ obj ∈ updates (updateStatus r cr pods store).events,
      obj.ObjectMeta = cr.ObjectMeta ∧ obj.Spec = cr.Spec := by
  intro obj hobj
  unfold updateStatus at hobj
  simp only at hobj
  split at hobj
  · simp [updates] at hobj
  · simp only [updates, List.filterMap_cons, List.filterMap_nil, List.mem_singleton] at hobj
    rw [hobj]
    exact ⟨rfl, rfl⟩

/-- The update calls of a pass write the fetched PodSet, up to its status. -/
theorem Reconcile_updates (r : ReconcilePodSet σ) (request : Request) (store : σ) :
    ∃ p, Reconcile r request store = some p ∧
      ∀ obj ∈ updates p.events, ∃ cr, r.client.Get request.NamespacedName store = .ok cr ∧
        obj.ObjectMeta = cr.ObjectMeta ∧ obj.Spec = cr.Spec := by
  cases hget : r.client.Get request.NamespacedName store with
  | error err =>
    unfold Reconcile
    simp only [hget]
    split <;> exact ⟨_, rfl, by simp [updates]⟩
  | ok cr =>
    cases hlist : r.client.List (listOps cr) store with
    | error err =>
      unfold Reconcile listPods
      simp only [hget, hlist]
      exact ⟨_, rfl, by simp [updates]⟩
    | ok items =>
      obtain ⟨act, hact⟩ := adjust_isSome r cr (filterPods items) store
      have hupd := (adjust_endsAtFailure r cr (filterPods items) store act hact).2
      rw [Reconcile_of_listed r request store cr items hget hlist, hact]
      simp only
      cases act.err with
      | some err =>
        refine ⟨_, rfl, ?_⟩
        intro obj hobj
        simp only [updates_append, hupd] at hobj
        simp [updates] at hobj
      | none =>
        refine ⟨_, rfl, ?_⟩
        intro obj hobj
        simp only [updates_append, hupd] at hobj
        have hobj' : obj ∈ updates (updateStatus r cr (filterPods items) act.store).events := by
          simpa [updates] using hobj
        exact ⟨cr, rfl, updates_updateStatus r cr (filterPods items) act.store obj hobj'⟩

theorem heapRead_append_left (h : MapHeap) (m : StringMap) (ref : Nat) (href : ref < h.length) :
    heapRead (h ++ [m]) ref = heapRead h ref := by
  unfold heapRead
  rw [List.getD_eq_getElem?_getD, List.getD_eq_getElem?_getD, List.getElem?_append_left href]

theorem heapRead_append_last (h : MapHeap) (m : StringMap) :
    heapRead (h ++ [m]) h.length = m := by
  unfold heapRead
  rw [List.getD_eq_getElem?_getD, List.getElem?_append_right (Nat.le_refl _)]
  simp

theorem heapAssign_append_last (h : MapHeap) (m : StringMap) (k v : String) :
    heapAssign (h ++ [m]) h.length k v = h ++ [m.insert k v] := by
  unfold heapAssign
  rw [heapRead_append_last, List.set_append_right _ _ (Nat.le_refl _)]
  simp

/-- The range loop through a reference to the last cell of the heap changes
that cell alone, and as the loop over map values does. -/
theorem foldl_heapAssign (entries : List (Sigma fun _ : String => String)) (h : MapHeap)
    (m : StringMap) :
    entries.foldl (fun hp e => heapAssign hp h.length e.1 e.2) (h ++ [m])
      = h ++ [rangeAssign entries m] := by
  induction entries generalizing m with
  | nil => rfl
  | cons e rest ih =>
    rw [List.foldl_cons, heapAssign_append_last, ih]
    rfl

/-- With maps as references, `labelsForPodSet` adds one cell to the heap, which
holds the labels the function on map values computes, and changes no other. -/
theorem labelsForPodSetRef_eq (cr : PodSet) (h : MapHeap) (ref : Nat) (href : ref < h.length)
    (hlabels : heapRead h ref = cr.ObjectMeta.Labels) :
    labelsForPodSetRef cr.ObjectMeta.Name (some ref) h = (h.length, h ++ [labelsForPodSet cr]) := by
  unfold labelsForPodSetRef defaultLabelsRef
  simp only
  rw [heapRead_append_left h _ ref href, hlabels, foldl_heapAssign]
  rfl

/-- Claim C15. The spec is never mutated by the reconciler: in every pass, an
object passed to the update call has the metadata (name, namespace, labels)
and the spec (size) of the fetched PodSet, so it differs from it in
`status.podNames` at most; and `labelsForPodSet`, run on a heap where maps are
references, returns a new map that holds the merged labels and leaves the
label map of the PodSet, and every other map of the heap, as it was. -/
theorem spec_never_mutated :
    (∀ (r : ReconcilePodSet σ) (request : Request) (store : σ),
      ∃ p, Reconcile r request store = some p ∧
        ∀ obj ∈ updates p.events, ∃ cr, r.client.Get request.NamespacedName store = .ok cr ∧
          obj.ObjectMeta = cr.ObjectMeta ∧ obj.Spec = cr.Spec) ∧
    (∀ (cr : PodSet) (h : MapHeap) (ref : Nat), ref < h.length →
      heapRead h ref = cr.ObjectMeta.Labels →
      heapRead (labelsForPodSetRef cr.ObjectMeta.Name (some ref) h).2 ref = cr.ObjectMeta.Labels ∧
      (∀ other, other < h.length →
        heapRead (labelsForPodSetRef cr.ObjectMeta.Name (some ref) h).2 other = heapRead h other) ∧
      heapRead (labelsForPodSetRef cr.ObjectMeta.Name (some ref) h).2
          (labelsForPodSetRef cr.ObjectMeta.Name (some ref) h).1
        = labelsForPodSet cr) ∧
    (∀ (name : String) (h : MapHeap) (other : Nat), other < h.length →
      heapRead (labelsForPodSetRef name none h).2 other = heapRead h other) := by
  refine ⟨Reconcile_updates, ?_, ?_⟩
  · intro cr h ref href hlabels
    rw [labelsForPodSetRef_eq cr h ref href hlabels]
    refine ⟨?_, ?_, ?_⟩
    · rw [heapRead_append_left h _ ref href, hlabels]
    · intro other hother
      exact heapRead_append_left h _ other hother
    · exact heapRead_append_last h _
  · intro name h other hother
    exact heapRead_append_left h _ other hother

/-- Witness of C15: a heap of two maps, the second of them the labels
`tier: web` of the PodSet `demo`. -/
theorem spec_never_mutated_witness :
    heapRead (labelsForPodSetRef "demo" (some 1) [∅, (∅ : StringMap).insert "tier" "web"]).2 1
        = (∅ : StringMap).insert "tier" "web" ∧
      (∀ other, other < 2 →
        heapRead (labelsForPodSetRef "demo" (some 1) [∅, (∅ : StringMap).insert "tier" "web"]).2 other
          = heapRead [∅, (∅ : StringMap).insert "tier" "web"] other) ∧
      heapRead (labelsForPodSetRef "demo" (some 1) [∅, (∅ : StringMap).insert "tier" "web"]).2
          (labelsForPodSetRef "demo" (some 1) [∅, (∅ : StringMap).insert "tier" "web"]).1
        = labelsForPodSet (samplePodSet "demo" ((∅ : StringMap).insert "tier" "web") two32 none) :=
  (@spec_never_mutated Nat).2.1
    (samplePodSet "demo" ((∅ : StringMap).insert "tier" "web") two32 none)
    [∅, (∅ : StringMap).insert "tier" "web"] 1 (by decide) rfl

/-! ## Index safety -/

/-- Claim C16. Index safety of the shrink step: `removePod` panics on the empty
slice and on no other; for every size, negative sizes and zero included, and
every slice of observed pods, the branch of `Reconcile` that calls `removePod`
is taken only with a slice that is not empty, so `pods[0]` is in range, the
add-or-remove code returns, and every pass returns; with no observed pod and a
negative size a pass issues no create and no delete call. -/
theorem removePod_index_safe :
    (∀ (r : ReconcilePodSet σ) (pods : List Pod) (store : σ),
      removePod r pods store = none ↔ pods = []) ∧
    (∀ (r : ReconcilePodSet σ) (cr : PodSet) (pods : List Pod) (store : σ),
      (¬ (0 < cr.Spec.Size.val ∧ (actualSize pods).val < cr.Spec.Size.val) →
        (0 < (actualSize pods).val ∧ cr.Spec.Size.val < (actualSize pods).val) →
        pods ≠ [] ∧ adjust r cr pods store = removePod r pods store) ∧
      ∃ act, adjust r cr pods store = some act) ∧
    (∀ (r : ReconcilePodSet σ) (request : Request) (store : σ),
      ∃ p, Reconcile r request store = some p) ∧
    (∀ (r : ReconcilePodSet σ) (request : Request) (store : σ) (cr : PodSet) (items : List Pod),
      r.client.Get request.NamespacedName store = .ok cr →
      r.client.List (listOps cr) store = .ok items →
      filterPods items = [] → cr.Spec.Size.val < 0 →
      ∃ p, Reconcile r request store = some p ∧ creates p.events = [] ∧
        deletes p.events = []) := by
  refine ⟨?_, ?_, ?_, ?_⟩
  · intro r pods store
    cases pods with
    | nil => simp [removePod]
    | cons first rest => simp [removePod]
  · intro r cr pods store
    refine ⟨?_, adjust_isSome r cr pods store⟩
    intro hgrow hshrink
    constructor
    · intro hnil
      rw [hnil, actualSize_nil] at hshrink
      omega
    · unfold adjust
      simp only
      rw [if_neg hgrow, if_pos hshrink]
  · intro r request store
    obtain ⟨p, hp, _⟩ := Reconcile_endsAtFailure r request store
    exact ⟨p, hp⟩
  · intro r request store cr items hget hlist hnone hneg
    have hact : adjust r cr (filterPods items) store
        = some { err := none, store := store, events := [] } := by
      unfold adjust
      simp only
      rw [hnone, actualSize_nil, if_neg (by omega), if_neg (by omega)]
    rw [Reconcile_of_listed r request store cr items hget hlist, hact]
    simp only
    refine ⟨_, rfl, ?_, ?_⟩
    · simp only [creates_append, creates_updateStatus]
      simp [creates]
    · simp only [deletes_append, deletes_updateStatus]
      simp [deletes]

/-- Witness of C16: size -1 and one listed pod, which is terminating. -/
theorem removePod_index_safe_witness :
    ∃ p, Reconcile (scripted (.ok (samplePodSet "demo" ∅ minusOne32 (some [])))
        (.ok [samplePod "w1" (some 7)]) none) demoRequest 0 = some p ∧
      creates p.events = [] ∧ deletes p.events = [] :=
  (@removePod_index_safe Nat).2.2.2
    (scripted (.ok (samplePodSet "demo" ∅ minusOne32 (some []))) (.ok [samplePod "w1" (some 7)]) none)
    demoRequest 0 (samplePodSet "demo" ∅ minusOne32 (some [])) [samplePod "w1" (some 7)]
    rfl rfl rfl (by decide)

end PodSetOperator
